import Mathlib

/-!
Block-state translator of neo-omega-kernel (`neomega/blocks/to_nemc_converter.go`)

A shallow embedding of the per-base-name anchor tables (`ToNEMCBaseNames`) and of the
translator built on them (`ToNEMCConverter`), followed by theorems about registration and
resolution.

Conventions of the embedding.

* `uint32` runtime ids are natural numbers; the code only compares and stores them.
* `int16` legacy values are integers; the single arithmetic operation the code performs on
  them, `legacyValue+1`, is wrapped into the 16-bit signed range by `wrapInt16`.
* `uint8` score fields are natural numbers; sums of them are reduced modulo `256`.
* A Go slice is a list. An index expression `xs[i]` that would raise a run-time panic makes the
  embedded function return `none`.
* A Go `map[string]V` is an association list with unique keys (`goMapGet`, `goMapSet`).
* A `*PropsForSearch` is an `Option PropsForSearch`, `none` being the nil pointer.
* The reader/writer locks are not modelled: every function is embedded as one atomic step.
-/

namespace Blocks

/-! ## Property sets -/

/-- Modelled from the spec: the typed value of a property (`bool`, signed 32-bit integer or
string); the declaration is not part of the available sources. -/
inductive PropVal where
  | bool (b : Bool)
  | int (i : Int)
  | str (s : String)
  deriving DecidableEq, Repr

/-- Modelled from the spec: a property set; only the field `props`, whose length is read by
`fuzzySearchByState`, is known from the available sources. -/
structure PropsForSearch where
  props : List (String × PropVal)
  deriving DecidableEq, Repr

/-- Modelled from the spec: the four counts produced by comparing two property sets. The field
`Same` is assigned a `uint8` in `fuzzySearchByState`; the other three counts are taken to have
the same width. -/
structure ComparedOutput where
  Same : Nat
  Different : Nat
  Redundant : Nat
  Missing : Nat
  deriving DecidableEq, Repr

/-- The runtime id stored in a legacy slot that has no mapping (`UNKNOWN_RUNTIME`). -/
def UNKNOWN_RUNTIME : Nat := 0xFFFFFFFF

/-- Modelled from the spec: the runtime id of air, numerically `0` in this catalog; the
constant is declared outside the available sources. -/
def AIR_RUNTIMEID : Nat := 0

/-- Insertion of a property into a list sorted by key (byte order of the keys). -/
def insertByKey (e : String × PropVal) : List (String × PropVal) → List (String × PropVal)
  | [] => [e]
  | x :: rest => if e.1 < x.1 then e :: x :: rest else x :: insertByKey e rest

/-- Properties sorted ascending by key. -/
def sortByKey : List (String × PropVal) → List (String × PropVal)
  | [] => []
  | x :: rest => insertByKey x (sortByKey rest)

/-- Escaping of a string value: a backslash before every double quote and backslash. -/
def escapeChars : List Char → List Char
  | [] => []
  | c :: rest =>
    if c = '"' ∨ c = '\\' then '\\' :: c :: escapeChars rest else c :: escapeChars rest

/-- Rendering of one typed value: `true|false`, decimal, or double-quoted escaped string. -/
def renderVal : PropVal → String
  | .bool true => "true"
  | .bool false => "false"
  | .int i => toString i
  | .str s => "\"" ++ String.mk (escapeChars s.data) ++ "\""

/-- Rendering of sorted properties as `k1=v1,k2=v2,...`. -/
def renderProps : List (String × PropVal) → String
  | [] => ""
  | [e] => e.1 ++ "=" ++ renderVal e.2
  | e :: rest => e.1 ++ "=" ++ renderVal e.2 ++ "," ++ renderProps rest

/-- Modelled from the spec: the precise canonical rendering `PropsForSearch.InPreciseSNBT`,
absent from the available sources. Keys ascend by byte comparison, values are rendered by
type, and the empty property set (also the nil pointer) renders as `{}`. -/
def InPreciseSNBT : Option PropsForSearch → String
  | none => "\x7b\x7d"
  | some p =>
    match p.props with
    | [] => "\x7b\x7d"
    | e :: rest => "[" ++ renderProps (sortByKey (e :: rest)) ++ "]"

/-- The properties of a possibly nil property set. -/
def propsOf : Option PropsForSearch → List (String × PropVal)
  | none => []
  | some p => p.props

/-- The value bound to a key in a property list, if any. -/
def propLookup (k : String) : List (String × PropVal) → Option PropVal
  | [] => none
  | e :: rest => if e.1 = k then some e.2 else propLookup k rest

/-- Number of anchor properties whose key is bound in the query to an equal typed value. -/
def countSame (anchor query : List (String × PropVal)) : Nat :=
  (anchor.filter (fun e => propLookup e.1 query = some e.2)).length

/-- Number of anchor properties whose key is bound in the query to an unequal value. -/
def countDifferent (anchor query : List (String × PropVal)) : Nat :=
  (anchor.filter (fun e =>
    match propLookup e.1 query with
    | some v => v ≠ e.2
    | none => false)).length

/-- Number of properties of `xs` whose key is not bound in `ys`. -/
def countAbsent (xs ys : List (String × PropVal)) : Nat :=
  (xs.filter (fun e => propLookup e.1 ys = none)).length

/-- Modelled from the spec: `PropsForSearch.Compare`, absent from the available sources; the
receiver is the anchor and the argument the query. *same*: key in both with equal typed value;
*different*: key in both with unequal values; *redundant*: key in the anchor, absent from the
query; *missing*: key in the query, absent from the anchor. Each count is stored in an 8-bit
field. -/
def Compare (anchor query : Option PropsForSearch) : ComparedOutput :=
  { Same := countSame (propsOf anchor) (propsOf query) % 256
    Different := countDifferent (propsOf anchor) (propsOf query) % 256
    Redundant := countAbsent (propsOf anchor) (propsOf query) % 256
    Missing := countAbsent (propsOf query) (propsOf anchor) % 256 }

/-! ## Machine integers, slices and maps -/

/-- Two's complement wrap-around of an integer into the `int16` range. -/
def wrapInt16 (x : Int) : Int := (x + 32768) % 65536 - 32768

/-- The index expression `xs[i]` of a Go slice: `none` stands for the run-time panic raised
when the index is negative or not below the length. -/
def sliceGet {α : Type} (xs : List α) (i : Int) : Option α :=
  if 0 ≤ i then xs[i.toNat]? else none

/-- The assignment `xs[i] = v` to a Go slice, `none` being the index panic. -/
def sliceSet {α : Type} (xs : List α) (i : Int) (v : α) : Option (List α) :=
  if 0 ≤ i ∧ i.toNat < xs.length then some (xs.set i.toNat v) else none

/-- Lookup `m[k]` in a Go map. -/
def goMapGet {β : Type} : List (String × β) → String → Option β
  | [], _ => none
  | e :: rest, k => if e.1 = k then some e.2 else goMapGet rest k

/-- Assignment `m[k] = v` in a Go map: the binding of an existing key is replaced, a new key
is added. -/
def goMapSet {β : Type} : List (String × β) → String → β → List (String × β)
  | [], k, v => [(k, v)]
  | e :: rest, k, v => if e.1 = k then (k, v) :: rest else e :: goMapSet rest k v

/-! ## Base-name groups -/

/-- An element of `statesWithRtid`: a property set and its runtime id. -/
structure Anchor where
  states : Option PropsForSearch
  rtid : Nat
  deriving DecidableEq, Repr

/-- The struct `ToNEMCBaseNames` (its lock left out). -/
structure ToNEMCBaseNames where
  legacyValuesMapping : List Nat
  statesWithRtid : List Anchor
  StatesWithRtidQuickMatch : List (String × Nat)
  deriving DecidableEq, Repr

/-- The error value returned on a registration conflict. -/
def conflictError : String := "conflict runtime id "

/-- The loop `for int(legacyValue+1) > len(m) { m = append(m, UNKNOWN_RUNTIME) }`, one
iteration per unit of fuel. -/
def growLegacy : Nat → Int → List Nat → List Nat
  | 0, _, m => m
  | fuel + 1, target, m =>
    if target > (m.length : Int) then growLegacy fuel target (m ++ [UNKNOWN_RUNTIME]) else m

/-- The method `addAnchorByLegacyValue`: the group after the call, `exist` and `conflictErr`;
`none` when an index expression panics. The growth loop is run with as many units of fuel as
it has iterations. -/
def addAnchorByLegacyValue (g : ToNEMCBaseNames) (legacyValue : Int) (nemcRTID : Nat) :
    Option (ToNEMCBaseNames × Bool × Option String) :=
  if wrapInt16 (legacyValue + 1) ≤ (g.legacyValuesMapping.length : Int) then
    match sliceGet g.legacyValuesMapping legacyValue with
    | none => none
    | some slot =>
      if slot = UNKNOWN_RUNTIME then
        match sliceSet g.legacyValuesMapping legacyValue nemcRTID with
        | none => none
        | some m => some ({ g with legacyValuesMapping := m }, false, none)
      else if slot ≠ nemcRTID then
        some (g, true, some conflictError)
      else
        some (g, true, none)
  else
    let target := wrapInt16 (legacyValue + 1)
    let grown := growLegacy (target - (g.legacyValuesMapping.length : Int)).toNat target
      g.legacyValuesMapping
    match sliceSet grown legacyValue nemcRTID with
    | none => none
    | some m => some ({ g with legacyValuesMapping := m }, false, none)

/-- The method `preciseMatchByLegacyValue`; `none` when the index expression panics. -/
def preciseMatchByLegacyValue (g : ToNEMCBaseNames) (legacyValue : Int) :
    Option (Nat × Bool) :=
  if wrapInt16 (legacyValue + 1) ≤ (g.legacyValuesMapping.length : Int) then
    match sliceGet g.legacyValuesMapping legacyValue with
    | none => none
    | some rtid => if rtid = UNKNOWN_RUNTIME then some (AIR_RUNTIMEID, false) else some (rtid, true)
  else
    some (AIR_RUNTIMEID, false)

/-- The method `fuzzySearchByLegacyValue`; `none` when an index expression panics. -/
def fuzzySearchByLegacyValue (g : ToNEMCBaseNames) (legacyValue : Int) :
    Option (Nat × Bool) :=
  let legacyHit : Option (Option Nat) :=
    if wrapInt16 (legacyValue + 1) ≤ (g.legacyValuesMapping.length : Int) then
      match sliceGet g.legacyValuesMapping legacyValue with
      | none => none
      | some rtid => if rtid ≠ UNKNOWN_RUNTIME then some (some rtid) else some none
    else
      some none
  match legacyHit with
  | none => none
  | some (some rtid) => some (rtid, true)
  | some none =>
    if wrapInt16 (legacyValue + 1) ≤ (g.statesWithRtid.length : Int) then
      match sliceGet g.statesWithRtid legacyValue with
      | none => none
      | some anchor => some (anchor.rtid, true)
    else
      match sliceGet g.statesWithRtid 0 with
      | none => none
      | some anchor => some (anchor.rtid, true)

/-- The key computed at the start of `addAnchorByState`: `{}` for the nil pointer, the
canonical rendering otherwise. -/
def quickMatchKey : Option PropsForSearch → String
  | none => "\x7b\x7d"
  | some p => InPreciseSNBT (some p)

/-- The method `addAnchorByState`: the group after the call, `exist` and `conflictErr`. -/
def addAnchorByState (g : ToNEMCBaseNames) (states : Option PropsForSearch) (runtimeID : Nat)
    (overwrite : Bool) : ToNEMCBaseNames × Bool × Option String :=
  let quickMatchStr := quickMatchKey states
  let appended : ToNEMCBaseNames :=
    { g with
      statesWithRtid := g.statesWithRtid ++ [{ states := states, rtid := runtimeID }]
      StatesWithRtidQuickMatch := goMapSet g.StatesWithRtidQuickMatch quickMatchStr runtimeID }
  match goMapGet g.StatesWithRtidQuickMatch quickMatchStr with
  | some currentRuntimeID =>
    if currentRuntimeID = runtimeID then
      (g, true, none)
    else if !overwrite then
      (g, true, some conflictError)
    else
      (appended, false, none)
  | none => (appended, false, none)

/-- The method `preciseMatchByState`; a missing key yields the zero value of `uint32`. -/
def preciseMatchByState (g : ToNEMCBaseNames) (states : Option PropsForSearch) : Nat × Bool :=
  match goMapGet g.StatesWithRtidQuickMatch (InPreciseSNBT states) with
  | some rtid => (rtid, true)
  | none => (0, false)

/-- The expression `s.Different + s.Redundant + s.Missing` in 8-bit unsigned arithmetic. -/
def mismatchSum (s : ComparedOutput) : Nat := (s.Different + s.Redundant + s.Missing) % 256

/-- The condition under which the scan of `fuzzySearchByState` replaces the running best
`score` by `newScore`, apart from the first iteration. -/
def improves (newScore score : ComparedOutput) : Bool :=
  decide (newScore.Same > score.Same) ||
    (decide (newScore.Same = score.Same) && decide (mismatchSum newScore < mismatchSum score))

/-- The loop of `fuzzySearchByState` over the anchors, carrying `rtid`, `score`, `matchAny`. -/
def fuzzyScan (states : Option PropsForSearch) :
    List Anchor → Nat × ComparedOutput × Bool → Nat × ComparedOutput × Bool
  | [], acc => acc
  | anchor :: rest, (rtid, score, matchAny) =>
    let newScore := Compare anchor.states states
    if (!matchAny) || improves newScore score then
      fuzzyScan states rest (anchor.rtid, newScore, true)
    else
      fuzzyScan states rest (rtid, score, true)

/-- The zero value of `ComparedOutput`. -/
def zeroScore : ComparedOutput := { Same := 0, Different := 0, Redundant := 0, Missing := 0 }

/-- The method `fuzzySearchByState`: `rtid`, `score` and `matchAny`. -/
def fuzzySearchByState (g : ToNEMCBaseNames) (states : Option PropsForSearch) :
    Nat × ComparedOutput × Bool :=
  match goMapGet g.StatesWithRtidQuickMatch (InPreciseSNBT states) with
  | some rtid =>
    let sameCount : Nat :=
      match states with
      | none => 0
      | some p => p.props.length % 256
    (rtid, { zeroScore with Same := sameCount }, true)
  | none => fuzzyScan states g.statesWithRtid (AIR_RUNTIMEID, zeroScore, false)

/-! ## The translator -/

/-- The struct `ToNEMCConverter` (its lock left out); the map holds the groups themselves,
and every method stores the group it has changed back under its name. -/
structure ToNEMCConverter where
  BaseNames : List (String × ToNEMCBaseNames)
  deriving DecidableEq, Repr

/-- The group allocated by `ensureBaseNameGroup` for a name seen for the first time. -/
def newBaseNameGroup : ToNEMCBaseNames :=
  { legacyValuesMapping := [], statesWithRtid := [], StatesWithRtidQuickMatch := [] }

/-- A translator without groups, such as `DefaultAnyToNemcConvertor` at start-up. -/
def emptyConverter : ToNEMCConverter := { BaseNames := [] }

/-- The method `ensureBaseNameGroup`: the translator after the call and the group. -/
def ensureBaseNameGroup (c : ToNEMCConverter) (name : String) :
    ToNEMCConverter × ToNEMCBaseNames :=
  match goMapGet c.BaseNames name with
  | some grp => (c, grp)
  | none => ({ BaseNames := goMapSet c.BaseNames name newBaseNameGroup }, newBaseNameGroup)

/-- The method `getBaseNameGroup`. -/
def getBaseNameGroup (c : ToNEMCConverter) (name : String) : Option ToNEMCBaseNames :=
  goMapGet c.BaseNames name

/-- The method `AddAnchorByLegacyValue`; `name` is the result of `name.BaseName()`. -/
def AddAnchorByLegacyValue (c : ToNEMCConverter) (name : String) (legacyValue : Int)
    (nemcRTID : Nat) : Option (ToNEMCConverter × Bool × Option String) :=
  let (c1, baseNameGroup) := ensureBaseNameGroup c name
  match addAnchorByLegacyValue baseNameGroup legacyValue nemcRTID with
  | none => none
  | some (g, exist, conflictErr) =>
    some ({ BaseNames := goMapSet c1.BaseNames name g }, exist, conflictErr)

/-- The method `PreciseMatchByLegacyValue`. -/
def PreciseMatchByLegacyValue (c : ToNEMCConverter) (name : String) (legacyValue : Int) :
    Option (Nat × Bool) :=
  match getBaseNameGroup c name with
  | none => some (AIR_RUNTIMEID, false)
  | some baseGroup => preciseMatchByLegacyValue baseGroup legacyValue

/-- The method `TryBestSearchByLegacyValue`. -/
def TryBestSearchByLegacyValue (c : ToNEMCConverter) (name : String) (legacyValue : Int) :
    Option (Nat × Bool) :=
  match getBaseNameGroup c name with
  | none => some (AIR_RUNTIMEID, false)
  | some baseGroup => fuzzySearchByLegacyValue baseGroup legacyValue

/-- The method `AddAnchorByState`. -/
def AddAnchorByState (c : ToNEMCConverter) (name : String) (states : Option PropsForSearch)
    (runtimeID : Nat) (overwrite : Bool) : ToNEMCConverter × Bool × Option String :=
  let (c1, baseNameGroup) := ensureBaseNameGroup c name
  match addAnchorByState baseNameGroup states runtimeID overwrite with
  | (g, exist, conflictErr) => ({ BaseNames := goMapSet c1.BaseNames name g }, exist, conflictErr)

/-- The method `PreciseMatchByState`. -/
def PreciseMatchByState (c : ToNEMCConverter) (name : String)
    (states : Option PropsForSearch) : Nat × Bool :=
  match getBaseNameGroup c name with
  | none => (AIR_RUNTIMEID, false)
  | some baseGroup => preciseMatchByState baseGroup states

/-- The method `TryBestSearchByState`. -/
def TryBestSearchByState (c : ToNEMCConverter) (name : String)
    (states : Option PropsForSearch) : Nat × ComparedOutput × Bool :=
  match getBaseNameGroup c name with
  | none => (AIR_RUNTIMEID, zeroScore, false)
  | some baseGroup => fuzzySearchByState baseGroup states

/-- The score of an anchor against a query, as computed in the scan. -/
def anchorScore (states : Option PropsForSearch) (a : Anchor) : ComparedOutput :=
  Compare a.states states

/-! ## Concrete inputs used to exercise the theorems -/

/-- The property set `[axis="v"]`. -/
def axisProps (v : String) : Option PropsForSearch := some { props := [("axis", .str v)] }

/-- The group obtained by registering `([axis="y"], 17)` and then `([axis="x"], 18)`. -/
def oakLogGroup : ToNEMCBaseNames :=
  (addAnchorByState (addAnchorByState newBaseNameGroup (axisProps "y") 17 false).1
    (axisProps "x") 18 false).1

/-- A group whose legacy slot `5` holds `42`, the slots below it being unset. -/
def woolGroup : ToNEMCBaseNames :=
  { newBaseNameGroup with
    legacyValuesMapping :=
      [UNKNOWN_RUNTIME, UNKNOWN_RUNTIME, UNKNOWN_RUNTIME, UNKNOWN_RUNTIME, UNKNOWN_RUNTIME, 42] }

/-- The translator obtained from the empty one by registering `([axis="y"], 17)` under
`oak_log` and then `([axis="y"], 18)` with overwrite. -/
def oakLogOverwritten : ToNEMCConverter :=
  (AddAnchorByState (AddAnchorByState emptyConverter "oak_log" (axisProps "y") 17 false).1
    "oak_log" (axisProps "y") 18 true).1

/-- The translator whose only group, `wool`, has legacy slot `5` set and no anchor by
state. -/
def woolConverter : ToNEMCConverter := { BaseNames := [("wool", woolGroup)] }

/-! ## Sequences of registration calls -/

/-- A registration call on the translator: `AddAnchorByLegacyValue` or `AddAnchorByState`
with its arguments (`name` being the result of `name.BaseName()`). -/
inductive RegCall where
  | byLegacy (name : String) (legacyValue : Int) (nemcRTID : Nat)
  | byState (name : String) (states : Option PropsForSearch) (runtimeID : Nat)
      (overwrite : Bool)
  deriving DecidableEq, Repr

/-- The translator left by one registration call, whatever the call returns; `none` when the
call panics. -/
def applyCall (c : ToNEMCConverter) : RegCall → Option ToNEMCConverter
  | .byLegacy name legacyValue nemcRTID =>
    match AddAnchorByLegacyValue c name legacyValue nemcRTID with
    | none => none
    | some res => some res.1
  | .byState name states runtimeID overwrite =>
    some (AddAnchorByState c name states runtimeID overwrite).1

/-- The translator left by a sequence of registration calls, `none` when one of them
panics. -/
def runCalls : ToNEMCConverter → List RegCall → Option ToNEMCConverter
  | c, [] => some c
  | c, call :: rest =>
    match applyCall c call with
    | none => none
    | some c1 => runCalls c1 rest

/-- The runtime id of the last anchor of a list whose canonical rendering is `key`. -/
def lastRtidWithKey (key : String) : List Anchor → Option Nat
  | [] => none
  | a :: rest =>
    match lastRtidWithKey key rest with
    | some r => some r
    | none => if InPreciseSNBT a.states = key then some a.rtid else none

/-- The property set `p0=0, p1=1, ...` of `n` properties with pairwise distinct keys. -/
def manyProps (n : Nat) : Option PropsForSearch :=
  some { props := (List.range n).map (fun (i : Nat) => ("p" ++ toString i, PropVal.int i)) }

/-- Agreement of the quick-match map of a group with its anchor list: every key is bound to
the runtime id of the last anchor with that canonical rendering, and unbound when there is no
such anchor. -/
def groupConsistent (g : ToNEMCBaseNames) : Prop :=
  ∀ key : String,
    goMapGet g.StatesWithRtidQuickMatch key = lastRtidWithKey key g.statesWithRtid

/-- Agreement of map and anchor list in every group of a translator. -/
def converterConsistent (c : ToNEMCConverter) : Prop :=
  ∀ (name : String) (g : ToNEMCBaseNames), goMapGet c.BaseNames name = some g →
    groupConsistent g

/-- The calls registering `([axis="y"], 17)` and then, with overwrite, `([axis="y"], 18)`
under `oak_log`. -/
def oakLogCalls : List RegCall :=
  [.byState "oak_log" (axisProps "y") 17 false, .byState "oak_log" (axisProps "y") 18 true]

/-- The group holding the anchors `([axis="y"], 17)` and `([axis="y"], 18)`, the second
registered with overwrite. -/
def oakLogTwice : ToNEMCBaseNames :=
  (addAnchorByState (addAnchorByState newBaseNameGroup (axisProps "y") 17 false).1
    (axisProps "y") 18 true).1

/-- The calls registering, under `stone`, the property set of `255` properties and then the
one of `256` properties that extends it by `p255=255`, both with runtime id `1`. -/
def manyPropsCalls : List RegCall :=
  [.byState "stone" (manyProps 255) 1 false, .byState "stone" (manyProps 256) 1 false]

/-- The group left by `manyPropsCalls`. -/
def manyPropsGroup : ToNEMCBaseNames :=
  (addAnchorByState (addAnchorByState newBaseNameGroup (manyProps 255) 1 false).1
    (manyProps 256) 1 false).1

/-- The translator left by `manyPropsCalls`. -/
def manyPropsConverter : ToNEMCConverter :=
  (AddAnchorByState (AddAnchorByState emptyConverter "stone" (manyProps 255) 1 false).1
    "stone" (manyProps 256) 1 false).1

/-! ## Splitting a block string

Go strings are byte sequences; the bytes the code looks for (`[`, `]`, `{`, `}`) are ASCII and
never occur inside a multi-byte UTF-8 sequence, so the functions are embedded on characters. -/

/-- The call `strings.ReplaceAll(s, "{", "[")`. -/
def replaceBraces (s : List Char) : List Char :=
  s.map (fun c => if c = '\x7b' then '[' else c)

/-- The call `strings.Split(s, "[")`. -/
def splitOnBracket : List Char → List (List Char)
  | [] => [[]]
  | c :: rest =>
    if c = '[' then [] :: splitOnBracket rest
    else
      match splitOnBracket rest with
      | [] => [[c]]
      | frag :: frags => (c :: frag) :: frags

/-- The removal of a final `]` or `}` from a non-empty state text. -/
def stripClosing (inBlockState : List Char) : List Char :=
  match inBlockState.getLast? with
  | some c => if c = ']' ∨ c = '\x7d' then inBlockState.dropLast else inBlockState
  | none => inBlockState

/-- The first part of `ConvertStringToBlockNameAndPropsForSearch`: the name text handed to
`BlockNameForSearch` and the state text handed to `PropsForSearchFromStr`. -/
def blockStringParts (blockString : String) : String × String :=
  let inFrags := splitOnBracket (replaceBraces blockString.data)
  let inBlockName := inFrags.headD []
  let inBlockState := if inFrags.length > 1 then inFrags.getD 1 [] else []
  (String.mk inBlockName, String.mk (stripClosing inBlockState))

/-- The function `ConvertStringToBlockNameAndPropsForSearch`. The name constructor
`BlockNameForSearch` and the property parser `PropsForSearchFromStr` (which returns a property
set and an error) lie outside the available sources and are parameters; the error of the parser
is only printed, its property set is returned. -/
def ConvertStringToBlockNameAndPropsForSearch {N : Type} (BlockNameForSearch : String → N)
    (PropsForSearchFromStr : String → Option PropsForSearch × Option String)
    (blockString : String) : N × Option PropsForSearch :=
  let parts := blockStringParts blockString
  (BlockNameForSearch parts.1, (PropsForSearchFromStr parts.2).1)

/-- The characters that are neither a bracket nor a brace. -/
def plainChar (c : Char) : Prop := c ≠ '[' ∧ c ≠ ']' ∧ c ≠ '\x7b' ∧ c ≠ '\x7d'

/-- A stand-in for the property parser that records the text it is given. -/
def recordingParser (text : String) : Option PropsForSearch × Option String :=
  (some { props := [(text, PropVal.bool true)] }, none)

end Blocks

/-!
Palette codec of the disk encoding (`neomega/mirror/chunk/encoding.go`)

A `bytes.Buffer` is the list of its unread bytes; a function that reads from the buffer
returns the bytes left unread, a function that writes to it returns the bytes it appends.
-/

namespace Chunk

/-- The values of type `error` that `decodePalette` tells apart: a
`*BlockPaletteEncodingError` with its two fields, or an error of any other type. -/
inductive GoError where
  | blockPaletteEncoding (error : String) (canContinue : Bool)
  | other (message : String)
  deriving DecidableEq, Repr

/-- Modelled from the spec: the palette, a bit width `Size` and the ordered runtime ids
`Values`; the type is declared outside the available sources, which read these two fields. -/
structure Palette where
  Size : Nat
  Values : List Nat
  deriving DecidableEq, Repr

/-- Modelled from the spec: the constructor `NewPalette`, declared outside the available
sources, taken to store its two arguments. -/
def NewPalette (size : Nat) (values : List Nat) : Palette := { Size := size, Values := values }

/-- The interface `paletteEncoding`: `encode` gives the bytes appended for a runtime id,
`decode` the runtime id and error returned together with the bytes left unread. -/
structure paletteEncoding where
  encode : Nat → List Nat
  decode : List Nat → Nat × Option GoError × List Nat

/-- The bytes written by `binary.Write(buf, binary.LittleEndian, v)` for a `uint32`. -/
def putUint32LE (v : Nat) : List Nat :=
  [v % 256, v / 256 % 256, v / 65536 % 256, v / 16777216 % 256]

/-- The call `binary.Read(buf, binary.LittleEndian, &v)` for a `uint32`: the value and the
bytes left, `none` when fewer than four bytes are available. -/
def readUint32LE : List Nat → Option (Nat × List Nat)
  | b0 :: b1 :: b2 :: b3 :: rest =>
    some (b0 % 256 + 256 * (b1 % 256) + 65536 * (b2 % 256) + 16777216 * (b3 % 256), rest)
  | _ => none

/-- The loop of `encodePalette` over `p.Values`. -/
def encodeValues (e : paletteEncoding) : List Nat → List Nat
  | [] => []
  | v :: rest => e.encode v ++ encodeValues e rest

/-- The method `diskEncoding.encodePalette`: the bytes appended to the buffer. -/
def encodePalette (p : Palette) (e : paletteEncoding) : List Nat :=
  (if p.Size ≠ 0 then putUint32LE (p.Values.length % 4294967296) else []) ++
    encodeValues e p.Values

/-- The first part of `decodePalette`: the palette count (`1` when the bit width is `0`,
otherwise read from the buffer) and the bytes that follow; `none` when the read fails. -/
def paletteHeader (buf : List Nat) (blockSize : Nat) : Option (Nat × List Nat) :=
  if blockSize ≠ 0 then readUint32LE buf else some (1, buf)

/-- The loop of `decodePalette` for the entries still to decode: the values stored, or the
error returned, and the bytes left unread. -/
def decodeValues (e : paletteEncoding) : Nat → List Nat → Except GoError (List Nat) × List Nat
  | 0, buf => (.ok [], buf)
  | n + 1, buf =>
    match e.decode buf with
    | (v, err, rest) =>
      match err with
      | some (.blockPaletteEncoding msg false) => (.error (.blockPaletteEncoding msg false), rest)
      | some (.blockPaletteEncoding _ true) =>
        match decodeValues e n rest with
        | (.ok values, left) => (.ok (Blocks.AIR_RUNTIMEID :: values), left)
        | (.error err2, left) => (.error err2, left)
      | _ =>
        match decodeValues e n rest with
        | (.ok values, left) => (.ok (v :: values), left)
        | (.error err2, left) => (.error err2, left)

/-- The method `diskEncoding.decodePalette`: the palette (or nil), the error (or nil) and the
bytes left unread. -/
def decodePalette (buf : List Nat) (blockSize : Nat) (e : paletteEncoding) :
    Option Palette × Option GoError × List Nat :=
  match paletteHeader buf blockSize with
  | none => (none, some (.other "error reading palette entry count"), [])
  | some (paletteCount, body) =>
    match decodeValues e paletteCount body with
    | (.ok values, left) => (some (NewPalette blockSize values), none, left)
    | (.error err, left) => (none, some err, left)

/-- The buffer from which palette entry `i` is decoded, `body` being the buffer after the
count. -/
def entryBuffer (e : paletteEncoding) (body : List Nat) : Nat → List Nat
  | 0 => body
  | i + 1 => (e.decode (entryBuffer e body i)).2.2

/-- The runtime id returned by the decoding of entry `i`. -/
def entryValue (e : paletteEncoding) (body : List Nat) (i : Nat) : Nat :=
  (e.decode (entryBuffer e body i)).1

/-- The error returned by the decoding of entry `i`. -/
def entryError (e : paletteEncoding) (body : List Nat) (i : Nat) : Option GoError :=
  (e.decode (entryBuffer e body i)).2.1

/-- The value `decodePalette` stores at index `i`: `AIR_RUNTIMEID` after a continuable
`BlockPaletteEncodingError`, the decoded runtime id otherwise. -/
def entryStored (e : paletteEncoding) (body : List Nat) (i : Nat) : Nat :=
  match entryError e body i with
  | some (.blockPaletteEncoding _ true) => Blocks.AIR_RUNTIMEID
  | _ => entryValue e body i

/-- Whether an error is a `BlockPaletteEncodingError` that cannot be continued. -/
def isFatal : Option GoError → Bool
  | some (.blockPaletteEncoding _ false) => true
  | _ => false

/-- An entry codec of one byte per runtime id; on decoding, byte `255` stands for an entry
that fails with a continuable error and byte `254` for one that fails fatally. -/
def flagCodec : paletteEncoding where
  encode := fun v => [v % 256]
  decode := fun buf =>
    match buf with
    | [] => (0, some (.other "EOF"), [])
    | b :: rest =>
      if b = 255 then (0, some (.blockPaletteEncoding "unknown block state" true), rest)
      else if b = 254 then (0, some (.blockPaletteEncoding "broken entry" false), rest)
      else (b, none, rest)

end Chunk

namespace Blocks

theorem improves_iff (n s : ComparedOutput) :
    improves n s = true ↔
      (s.Same < n.Same ∨ (n.Same = s.Same ∧ mismatchSum n < mismatchSum s)) := by
  simp [improves]

theorem improves_eq_false_iff (n s : ComparedOutput) :
    improves n s = false ↔
      (n.Same ≤ s.Same ∧ (n.Same = s.Same → mismatchSum s ≤ mismatchSum n)) := by
  rw [← Bool.not_eq_true, improves_iff]
  constructor
  · intro h
    refine ⟨by omega, fun he => ?_⟩
    by_contra hc
    exact h (Or.inr ⟨he, by omega⟩)
  · rintro ⟨h1, h2⟩ (h | ⟨he, hl⟩)
    · omega
    · have := h2 he
      omega

/-- As long as the three counts add up to less than `256`, the sum the code compares is the
plain sum. -/
theorem mismatchSum_of_lt (s : ComparedOutput)
    (h : s.Different + s.Redundant + s.Missing < 256) :
    mismatchSum s = s.Different + s.Redundant + s.Missing := by
  unfold mismatchSum
  exact Nat.mod_eq_of_lt h

theorem fuzzyScan_cons_first (states : Option PropsForSearch) (x : Anchor) (rest : List Anchor)
    (rtid : Nat) (score : ComparedOutput) :
    fuzzyScan states (x :: rest) (rtid, score, false) =
      fuzzyScan states rest (x.rtid, Compare x.states states, true) := by
  simp [fuzzyScan]

theorem fuzzyScan_cons_improves (states : Option PropsForSearch) (x : Anchor)
    (rest : List Anchor) (rtid : Nat) (score : ComparedOutput)
    (h : improves (Compare x.states states) score = true) :
    fuzzyScan states (x :: rest) (rtid, score, true) =
      fuzzyScan states rest (x.rtid, Compare x.states states, true) := by
  simp [fuzzyScan, h]

theorem fuzzyScan_cons_keeps (states : Option PropsForSearch) (x : Anchor)
    (rest : List Anchor) (rtid : Nat) (score : ComparedOutput)
    (h : improves (Compare x.states states) score = false) :
    fuzzyScan states (x :: rest) (rtid, score, true) =
      fuzzyScan states rest (rtid, score, true) := by
  simp [fuzzyScan, h]

/-- Invariant of the scan: the running best `b` strictly beats every anchor before it and is
not beaten by any anchor scanned so far; at the end of the list the same holds of the result. -/
theorem fuzzyScan_invariant (states : Option PropsForSearch) :
    ∀ (rest earlier mid : List Anchor) (b : Anchor),
      (∀ a ∈ earlier, improves (anchorScore states b) (anchorScore states a) = true) →
      (∀ a ∈ earlier ++ b :: mid,
        improves (anchorScore states a) (anchorScore states b) = false) →
      ∃ (earlier2 later2 : List Anchor) (b2 : Anchor),
        earlier ++ b :: mid ++ rest = earlier2 ++ b2 :: later2 ∧
        fuzzyScan states rest (b.rtid, anchorScore states b, true) =
          (b2.rtid, anchorScore states b2, true) ∧
        (∀ a ∈ earlier2, improves (anchorScore states b2) (anchorScore states a) = true) ∧
        (∀ a ∈ earlier2 ++ b2 :: later2,
          improves (anchorScore states a) (anchorScore states b2) = false) := by
  intro rest
  induction rest with
  | nil =>
    intro earlier mid b h1 h2
    exact ⟨earlier, mid, b, by simp, by simp [fuzzyScan], h1, h2⟩
  | cons x rest ih =>
    intro earlier mid b h1 h2
    by_cases hx : improves (anchorScore states x) (anchorScore states b) = true
    · have hstep := fuzzyScan_cons_improves states x rest b.rtid (anchorScore states b) hx
      have hxb := (improves_iff _ _).1 hx
      obtain ⟨e2, l2, b2, hdec, hres, hA, hB⟩ := ih (earlier ++ b :: mid) [] x
        (by
          intro a ha
          have hab := (improves_eq_false_iff _ _).1 (h2 a ha)
          rw [improves_iff]
          rcases hxb with h | ⟨he, hl⟩
          · left; omega
          · rcases Nat.lt_or_ge (anchorScore states a).Same (anchorScore states b).Same with
              hlt | hge
            · left; omega
            · right
              have heq : (anchorScore states a).Same = (anchorScore states b).Same := by omega
              have := hab.2 heq
              exact ⟨by omega, by omega⟩)
        (by
          intro a ha
          rw [improves_eq_false_iff]
          rcases List.mem_append.1 ha with ha | ha
          · have hab := (improves_eq_false_iff _ _).1 (h2 a ha)
            rcases hxb with h | ⟨he, hl⟩
            · exact ⟨by omega, fun heq => by omega⟩
            · refine ⟨by omega, fun heq => ?_⟩
              have := hab.2 (by omega)
              omega
          · have hax : a = x := by simpa using ha
            subst hax
            exact ⟨le_refl _, fun _ => le_refl _⟩)
      refine ⟨e2, l2, b2, ?_, ?_, hA, hB⟩
      · rw [← hdec]; simp
      · rw [← hres]; exact hstep
    · have hx2 : improves (anchorScore states x) (anchorScore states b) = false := by
        simpa using hx
      have hstep := fuzzyScan_cons_keeps states x rest b.rtid (anchorScore states b) hx2
      obtain ⟨e2, l2, b2, hdec, hres, hA, hB⟩ := ih earlier (mid ++ [x]) b h1
        (by
          intro a ha
          have hmem : a ∈ earlier ++ b :: mid ∨ a = x := by
            simp only [List.mem_append, List.mem_cons, List.mem_singleton,
              List.not_mem_nil, or_false] at ha ⊢
            tauto
          rcases hmem with hm | hm
          · exact h2 a hm
          · subst hm; exact hx2)
      refine ⟨e2, l2, b2, ?_, ?_, hA, hB⟩
      · rw [← hdec]; simp
      · rw [← hres]; exact hstep

/-! ## Lemmas on machine integers, slices and maps -/

theorem wrapInt16_succ_of_lt (lv : Int) (hlo : 0 ≤ lv) (hhi : lv ≤ 32766) :
    wrapInt16 (lv + 1) = lv + 1 := by
  unfold wrapInt16
  omega

theorem wrapInt16_succ_max : wrapInt16 (32767 + 1) = -32768 := by
  decide

theorem quickMatchKey_eq (states : Option PropsForSearch) :
    quickMatchKey states = InPreciseSNBT states := by
  cases states <;> rfl

theorem goMapGet_goMapSet_self {β : Type} (m : List (String × β)) (k : String) (v : β) :
    goMapGet (goMapSet m k v) k = some v := by
  induction m with
  | nil => simp [goMapSet, goMapGet]
  | cons e rest ih =>
    by_cases h : e.1 = k
    · simp [goMapSet, goMapGet, h]
    · simp [goMapSet, goMapGet, h, ih]

theorem goMapSet_of_goMapGet {β : Type} (m : List (String × β)) (k : String) (v : β)
    (h : goMapGet m k = some v) : goMapSet m k v = m := by
  induction m with
  | nil => simp [goMapGet] at h
  | cons e rest ih =>
    by_cases hk : e.1 = k
    · simp only [goMapGet, hk, if_true, Option.some.injEq] at h
      simp only [goMapSet, hk, if_true]
      rw [← h, ← hk]
    · simp only [goMapGet, hk, if_false] at h
      simp [goMapSet, hk, ih h]

/-! ## Resolution by state: the scan -/

/-- The ranking performed by the scan, in the arithmetic of the code. In a group with a
non-empty anchor list, for a query whose canonical rendering is not a key of the quick-match
map, `fuzzySearchByState` reports a match and returns the runtime id and the score of the
earliest anchor that is maximal for the order the scan applies: the anchor list splits as
`earlier ++ best :: later`, no anchor has a larger `Same` than `best`, no anchor with the same
`Same` has a smaller `mismatchSum` (the sum of the three counts modulo `256`), and every anchor
inserted before `best` is strictly worse in that order. -/
theorem fuzzySearchByState_first_best (g : ToNEMCBaseNames) (states : Option PropsForSearch)
    (hne : g.statesWithRtid ≠ [])
    (hkey : goMapGet g.StatesWithRtidQuickMatch (InPreciseSNBT states) = none) :
    ∃ (earlier later : List Anchor) (best : Anchor),
      g.statesWithRtid = earlier ++ best :: later ∧
      fuzzySearchByState g states = (best.rtid, Compare best.states states, true) ∧
      (∀ a ∈ g.statesWithRtid,
        (Compare a.states states).Same ≤ (Compare best.states states).Same) ∧
      (∀ a ∈ g.statesWithRtid,
        (Compare a.states states).Same = (Compare best.states states).Same →
          mismatchSum (Compare best.states states) ≤ mismatchSum (Compare a.states states)) ∧
      (∀ a ∈ earlier,
        (Compare a.states states).Same < (Compare best.states states).Same ∨
          ((Compare a.states states).Same = (Compare best.states states).Same ∧
            mismatchSum (Compare best.states states) <
              mismatchSum (Compare a.states states))) := by
  obtain ⟨x, rest, hxs⟩ := List.exists_cons_of_ne_nil hne
  obtain ⟨e2, l2, b2, hdec, hres, hA, hB⟩ := fuzzyScan_invariant states rest [] [] x
    (by simp) (by
      intro a ha
      have hax : a = x := by simpa using ha
      subst hax
      rw [improves_eq_false_iff]
      exact ⟨le_refl _, fun _ => le_refl _⟩)
  have hlist : g.statesWithRtid = e2 ++ b2 :: l2 := by
    rw [hxs, ← hdec]; simp
  refine ⟨e2, l2, b2, hlist, ?_, ?_, ?_, ?_⟩
  · unfold fuzzySearchByState
    rw [hkey, hxs]
    simp only []
    rw [fuzzyScan_cons_first]
    exact hres
  · intro a ha
    rw [hlist] at ha
    exact ((improves_eq_false_iff _ _).1 (hB a ha)).1
  · intro a ha
    rw [hlist] at ha
    exact ((improves_eq_false_iff _ _).1 (hB a ha)).2
  · intro a ha
    have h := (improves_iff _ _).1 (hA a ha)
    rcases h with h | ⟨he, hl⟩
    · exact Or.inl h
    · exact Or.inr ⟨he.symm, hl⟩

/-- Scenario of the spec: with anchors `([axis="y"], 17)`, `([axis="x"], 18)` and the query
`[axis="z"]` both anchors score `Same = 0, Different = 1`, and the first one, `17`, wins. -/
theorem fuzzySearchByState_first_best_witness :
    (oakLogGroup.statesWithRtid ≠ [] ∧
      goMapGet oakLogGroup.StatesWithRtidQuickMatch (InPreciseSNBT (axisProps "z")) = none ∧
      fuzzySearchByState oakLogGroup (axisProps "z") =
        (17, { Same := 0, Different := 1, Redundant := 0, Missing := 0 }, true)) ∧
    ∃ (earlier later : List Anchor) (best : Anchor),
      oakLogGroup.statesWithRtid = earlier ++ best :: later ∧
      fuzzySearchByState oakLogGroup (axisProps "z") =
        (best.rtid, Compare best.states (axisProps "z"), true) ∧
      (∀ a ∈ oakLogGroup.statesWithRtid,
        (Compare a.states (axisProps "z")).Same ≤
          (Compare best.states (axisProps "z")).Same) ∧
      (∀ a ∈ oakLogGroup.statesWithRtid,
        (Compare a.states (axisProps "z")).Same = (Compare best.states (axisProps "z")).Same →
          mismatchSum (Compare best.states (axisProps "z")) ≤
            mismatchSum (Compare a.states (axisProps "z"))) ∧
      (∀ a ∈ earlier,
        (Compare a.states (axisProps "z")).Same < (Compare best.states (axisProps "z")).Same ∨
          ((Compare a.states (axisProps "z")).Same =
              (Compare best.states (axisProps "z")).Same ∧
            mismatchSum (Compare best.states (axisProps "z")) <
              mismatchSum (Compare a.states (axisProps "z")))) :=
  ⟨⟨by decide, by decide, by decide⟩,
    fuzzySearchByState_first_best oakLogGroup (axisProps "z") (by decide) (by decide)⟩

/-! ## Registration by legacy value: occupied slot -/

/-- C2. When the slot of a legacy value exists and holds `r0`, different from
`UNKNOWN_RUNTIME`, registering `r0` again returns `exist = true` without error, registering any
other runtime id returns `exist = true` with the conflict error, and in both cases the group
returned is the group given, so the slot still holds `r0`. -/
theorem addAnchorByLegacyValue_occupied (g : ToNEMCBaseNames) (lv : Int) (r0 r : Nat)
    (hhi : lv ≤ 32767)
    (hslot : sliceGet g.legacyValuesMapping lv = some r0)
    (hr0 : r0 ≠ UNKNOWN_RUNTIME) :
    addAnchorByLegacyValue g lv r0 = some (g, true, none) ∧
    (r ≠ r0 → addAnchorByLegacyValue g lv r = some (g, true, some conflictError)) ∧
    (∀ g2 res, (addAnchorByLegacyValue g lv r0 = some (g2, res) ∨
        addAnchorByLegacyValue g lv r = some (g2, res)) →
      g2 = g ∧ sliceGet g2.legacyValuesMapping lv = some r0) := by
  have hlo : 0 ≤ lv := by
    unfold sliceGet at hslot
    by_contra hc
    simp [hc] at hslot
  have hlen : lv.toNat < g.legacyValuesMapping.length := by
    unfold sliceGet at hslot
    simp only [hlo, if_true] at hslot
    exact (List.getElem?_eq_some_iff.1 hslot).1
  have hguard : wrapInt16 (lv + 1) ≤ (g.legacyValuesMapping.length : Int) := by
    unfold wrapInt16
    omega
  have hsame : addAnchorByLegacyValue g lv r0 = some (g, true, none) := by
    unfold addAnchorByLegacyValue
    simp [hguard, hslot, hr0]
  have hother : r ≠ r0 → addAnchorByLegacyValue g lv r = some (g, true, some conflictError) := by
    intro hne
    unfold addAnchorByLegacyValue
    simp [hguard, hslot, hr0, Ne.symm hne]
  refine ⟨hsame, hother, ?_⟩
  intro g2 res h
  have hg2 : g2 = g := by
    rcases h with h | h
    · rw [hsame] at h
      simp only [Option.some.injEq, Prod.mk.injEq] at h
      exact h.1.symm
    · by_cases hne : r = r0
      · rw [hne, hsame] at h
        simp only [Option.some.injEq, Prod.mk.injEq] at h
        exact h.1.symm
      · rw [hother hne] at h
        simp only [Option.some.injEq, Prod.mk.injEq] at h
        exact h.1.symm
  subst hg2
  exact ⟨rfl, hslot⟩

/-- Scenario for C2: slot `5` holds `42`; registering `42` again succeeds with
`exist = true`, registering `99` is a conflict, and the slot keeps `42`. -/
theorem addAnchorByLegacyValue_occupied_witness :
    ((5 : Int) ≤ 32767 ∧ sliceGet woolGroup.legacyValuesMapping 5 = some 42 ∧
      (42 : Nat) ≠ UNKNOWN_RUNTIME ∧ (99 : Nat) ≠ 42) ∧
    (addAnchorByLegacyValue woolGroup 5 42 = some (woolGroup, true, none) ∧
      ((99 : Nat) ≠ 42 →
        addAnchorByLegacyValue woolGroup 5 99 = some (woolGroup, true, some conflictError)) ∧
      (∀ g2 res, (addAnchorByLegacyValue woolGroup 5 42 = some (g2, res) ∨
          addAnchorByLegacyValue woolGroup 5 99 = some (g2, res)) →
        g2 = woolGroup ∧ sliceGet g2.legacyValuesMapping 5 = some 42)) :=
  ⟨⟨by decide, by decide, by decide, by decide⟩,
    addAnchorByLegacyValue_occupied woolGroup 5 42 99 (by decide) (by decide) (by decide)⟩

/-! ## Registration by state -/

/-- C3. When the quick-match map already binds the canonical rendering of `states` to a
runtime id other than `runtimeID`, `addAnchorByState` without overwrite returns `exist = true`
with the conflict error and the group unchanged (anchor list, quick-match map and legacy
mapping alike). -/
theorem addAnchorByState_conflict (g : ToNEMCBaseNames) (states : Option PropsForSearch)
    (runtimeID current : Nat)
    (hcur : goMapGet g.StatesWithRtidQuickMatch (InPreciseSNBT states) = some current)
    (hne : current ≠ runtimeID) :
    addAnchorByState g states runtimeID false = (g, true, some conflictError) ∧
    (addAnchorByState g states runtimeID false).1.statesWithRtid = g.statesWithRtid ∧
    (addAnchorByState g states runtimeID false).1.StatesWithRtidQuickMatch =
      g.StatesWithRtidQuickMatch ∧
    (addAnchorByState g states runtimeID false).1.legacyValuesMapping =
      g.legacyValuesMapping := by
  have h : addAnchorByState g states runtimeID false = (g, true, some conflictError) := by
    unfold addAnchorByState
    simp [quickMatchKey_eq, hcur, hne]
  rw [h]
  exact ⟨rfl, rfl, rfl, rfl⟩

/-- Scenario for C3: `[axis="y"]` is bound to `17`; registering it with `99` and no overwrite
is a conflict that leaves the group as it was. -/
theorem addAnchorByState_conflict_witness :
    (goMapGet oakLogGroup.StatesWithRtidQuickMatch (InPreciseSNBT (axisProps "y")) = some 17 ∧
      (17 : Nat) ≠ 99) ∧
    (addAnchorByState oakLogGroup (axisProps "y") 99 false =
        (oakLogGroup, true, some conflictError) ∧
      (addAnchorByState oakLogGroup (axisProps "y") 99 false).1.statesWithRtid =
        oakLogGroup.statesWithRtid ∧
      (addAnchorByState oakLogGroup (axisProps "y") 99 false).1.StatesWithRtidQuickMatch =
        oakLogGroup.StatesWithRtidQuickMatch ∧
      (addAnchorByState oakLogGroup (axisProps "y") 99 false).1.legacyValuesMapping =
        oakLogGroup.legacyValuesMapping) :=
  ⟨⟨by decide, by decide⟩,
    addAnchorByState_conflict oakLogGroup (axisProps "y") 99 17 (by decide) (by decide)⟩

/-- After a call of `addAnchorByState` that reports no conflict, the quick-match map binds the
key of `states` to `runtimeID`. -/
theorem addAnchorByState_binds (g : ToNEMCBaseNames) (states : Option PropsForSearch)
    (runtimeID : Nat) (overwrite : Bool)
    (hok : (addAnchorByState g states runtimeID overwrite).2.2 = none) :
    goMapGet (addAnchorByState g states runtimeID overwrite).1.StatesWithRtidQuickMatch
      (quickMatchKey states) = some runtimeID := by
  unfold addAnchorByState at hok ⊢
  cases hget : goMapGet g.StatesWithRtidQuickMatch (quickMatchKey states) with
  | none =>
    simp only [hget]
    exact goMapGet_goMapSet_self _ _ _
  | some cur =>
    simp only [hget] at hok ⊢
    by_cases hc : cur = runtimeID
    · simp only [hc, if_true]
      rw [hget, hc]
    · cases overwrite with
      | false => simp [hc] at hok
      | true =>
        simp only [hc, if_false, Bool.not_true, Bool.false_eq_true]
        exact goMapGet_goMapSet_self _ _ _

/-- A call of `addAnchorByState` on a group whose quick-match map already binds the key of
`states` to `runtimeID` changes nothing and returns `exist = true` without error. -/
theorem addAnchorByState_of_bound (g : ToNEMCBaseNames) (states : Option PropsForSearch)
    (runtimeID : Nat) (overwrite : Bool)
    (h : goMapGet g.StatesWithRtidQuickMatch (quickMatchKey states) = some runtimeID) :
    addAnchorByState g states runtimeID overwrite = (g, true, none) := by
  unfold addAnchorByState
  simp [h]

/-- The group stored under `name` after `AddAnchorByState` is the group returned by
`addAnchorByState` on the group `ensureBaseNameGroup` yields. -/
theorem AddAnchorByState_eq (c : ToNEMCConverter) (name : String)
    (states : Option PropsForSearch) (runtimeID : Nat) (overwrite : Bool) :
    AddAnchorByState c name states runtimeID overwrite =
      ({ BaseNames := goMapSet (ensureBaseNameGroup c name).1.BaseNames name
          (addAnchorByState (ensureBaseNameGroup c name).2 states runtimeID overwrite).1 },
        (addAnchorByState (ensureBaseNameGroup c name).2 states runtimeID overwrite).2) := by
  rfl

theorem ensureBaseNameGroup_of_get (c : ToNEMCConverter) (name : String) (g : ToNEMCBaseNames)
    (h : goMapGet c.BaseNames name = some g) : ensureBaseNameGroup c name = (c, g) := by
  unfold ensureBaseNameGroup
  rw [h]

/-- C4. Registration idempotence: if `AddAnchorByState c name p r o1` reports no conflict,
then a second call with the same name, property set and runtime id, and any overwrite flag,
returns `exist = true` without a conflict error and leaves the translator, hence the anchor
list and the quick-match map of the group, exactly as the first call left them. -/
theorem AddAnchorByState_idempotent (c : ToNEMCConverter) (name : String)
    (p : Option PropsForSearch) (r : Nat) (o1 o2 : Bool)
    (hok : (AddAnchorByState c name p r o1).2.2 = none) :
    AddAnchorByState (AddAnchorByState c name p r o1).1 name p r o2 =
        ((AddAnchorByState c name p r o1).1, true, none) ∧
    (∀ g1 g2, getBaseNameGroup (AddAnchorByState c name p r o1).1 name = some g1 →
      getBaseNameGroup (AddAnchorByState (AddAnchorByState c name p r o1).1 name p r o2).1 name
        = some g2 →
      g2.statesWithRtid = g1.statesWithRtid ∧
        g2.StatesWithRtidQuickMatch = g1.StatesWithRtidQuickMatch) := by
  have hmain : AddAnchorByState (AddAnchorByState c name p r o1).1 name p r o2 =
      ((AddAnchorByState c name p r o1).1, true, none) := by
    rw [AddAnchorByState_eq c name p r o1] at hok ⊢
    simp only [] at hok
    have hbound := addAnchorByState_binds (ensureBaseNameGroup c name).2 p r o1 hok
    have hget := goMapGet_goMapSet_self (ensureBaseNameGroup c name).1.BaseNames name
      (addAnchorByState (ensureBaseNameGroup c name).2 p r o1).1
    rw [AddAnchorByState_eq]
    simp only []
    rw [ensureBaseNameGroup_of_get _ name _ hget]
    simp only []
    rw [addAnchorByState_of_bound _ p r o2 hbound]
    simp only []
    rw [goMapSet_of_goMapGet _ _ _ hget]
  refine ⟨hmain, ?_⟩
  intro g1 g2 h1 h2
  rw [hmain] at h2
  simp only [] at h2
  rw [h1] at h2
  simp only [Option.some.injEq] at h2
  subst h2
  exact ⟨rfl, rfl⟩

/-- Scenario for C4: registering `([axis="y"], 17)` under `oak_log` twice, the second time
with overwrite set. -/
theorem AddAnchorByState_idempotent_witness :
    (AddAnchorByState emptyConverter "oak_log" (axisProps "y") 17 false).2.2 = none ∧
    (AddAnchorByState (AddAnchorByState emptyConverter "oak_log" (axisProps "y") 17 false).1
          "oak_log" (axisProps "y") 17 true =
        ((AddAnchorByState emptyConverter "oak_log" (axisProps "y") 17 false).1, true, none) ∧
      (∀ g1 g2,
        getBaseNameGroup
            (AddAnchorByState emptyConverter "oak_log" (axisProps "y") 17 false).1 "oak_log"
          = some g1 →
        getBaseNameGroup
            (AddAnchorByState
              (AddAnchorByState emptyConverter "oak_log" (axisProps "y") 17 false).1
              "oak_log" (axisProps "y") 17 true).1 "oak_log"
          = some g2 →
        g2.statesWithRtid = g1.statesWithRtid ∧
          g2.StatesWithRtidQuickMatch = g1.StatesWithRtidQuickMatch)) :=
  ⟨by decide,
    AddAnchorByState_idempotent emptyConverter "oak_log" (axisProps "y") 17 false true
      (by decide)⟩

/-- C5. Overwrite path: when the quick-match map binds the canonical rendering of `p` to `r1`
and `r2` differs from `r1`, `addAnchorByState` with overwrite returns `exist = false` without
error; afterwards `preciseMatchByState` for `p` returns `(r2, true)`, and the anchor list is
the old list with the single anchor `(p, r2)` appended, so that every earlier anchor keeps its
position. -/
theorem addAnchorByState_overwrite (g : ToNEMCBaseNames) (p : Option PropsForSearch)
    (r1 r2 : Nat)
    (hcur : goMapGet g.StatesWithRtidQuickMatch (InPreciseSNBT p) = some r1)
    (hne : r2 ≠ r1) :
    (addAnchorByState g p r2 true).2 = (false, none) ∧
    preciseMatchByState (addAnchorByState g p r2 true).1 p = (r2, true) ∧
    (addAnchorByState g p r2 true).1.statesWithRtid =
      g.statesWithRtid ++ [{ states := p, rtid := r2 }] ∧
    (∀ (i : Nat) (a : Anchor), g.statesWithRtid[i]? = some a →
      (addAnchorByState g p r2 true).1.statesWithRtid[i]? = some a) := by
  have h : addAnchorByState g p r2 true =
      ({ g with
          statesWithRtid := g.statesWithRtid ++ [{ states := p, rtid := r2 }]
          StatesWithRtidQuickMatch :=
            goMapSet g.StatesWithRtidQuickMatch (InPreciseSNBT p) r2 }, false, none) := by
    unfold addAnchorByState
    simp [quickMatchKey_eq, hcur, Ne.symm hne]
  rw [h]
  refine ⟨rfl, ?_, rfl, ?_⟩
  · unfold preciseMatchByState
    simp only []
    rw [goMapGet_goMapSet_self]
  · intro i a hi
    simp only []
    have hlt : i < g.statesWithRtid.length := (List.getElem?_eq_some_iff.1 hi).1
    rw [List.getElem?_append_left hlt]
    exact hi

/-- Scenario for C5: `[axis="y"]` is bound to `17` and is registered again with `99` and
overwrite set. -/
theorem addAnchorByState_overwrite_witness :
    (goMapGet oakLogGroup.StatesWithRtidQuickMatch (InPreciseSNBT (axisProps "y")) = some 17 ∧
      (99 : Nat) ≠ 17) ∧
    ((addAnchorByState oakLogGroup (axisProps "y") 99 true).2 = (false, none) ∧
      preciseMatchByState (addAnchorByState oakLogGroup (axisProps "y") 99 true).1
        (axisProps "y") = (99, true) ∧
      (addAnchorByState oakLogGroup (axisProps "y") 99 true).1.statesWithRtid =
        oakLogGroup.statesWithRtid ++ [{ states := axisProps "y", rtid := 99 }] ∧
      (∀ (i : Nat) (a : Anchor), oakLogGroup.statesWithRtid[i]? = some a →
        (addAnchorByState oakLogGroup (axisProps "y") 99 true).1.statesWithRtid[i]? =
          some a)) :=
  ⟨⟨by decide, by decide⟩,
    addAnchorByState_overwrite oakLogGroup (axisProps "y") 17 99 (by decide) (by decide)⟩

/-! ## Registration by legacy value: free slot -/

/-- With enough fuel the growth loop appends exactly the missing number of unset slots. -/
theorem growLegacy_eq (target : Int) :
    ∀ (fuel : Nat) (m : List Nat), (target - (m.length : Int)).toNat ≤ fuel →
      growLegacy fuel target m =
        m ++ List.replicate (target - (m.length : Int)).toNat UNKNOWN_RUNTIME := by
  intro fuel
  induction fuel with
  | zero =>
    intro m h
    have h0 : (target - (m.length : Int)).toNat = 0 := by omega
    simp [growLegacy, h0]
  | succ k ih =>
    intro m h
    by_cases hgt : target > (m.length : Int)
    · have hlen : ((m ++ [UNKNOWN_RUNTIME]).length : Int) = (m.length : Int) + 1 := by
        simp
      have hk : (target - ((m ++ [UNKNOWN_RUNTIME]).length : Int)).toNat ≤ k := by
        rw [hlen]; omega
      have hsucc : (target - (m.length : Int)).toNat =
          (target - ((m ++ [UNKNOWN_RUNTIME]).length : Int)).toNat + 1 := by
        rw [hlen]; omega
      simp only [growLegacy, hgt, if_true]
      rw [ih _ hk, hsucc, List.replicate_succ, List.append_assoc]
      rfl
    · have h0 : (target - (m.length : Int)).toNat = 0 := by omega
      simp [growLegacy, hgt, h0]

/-- C6. For a legacy value in `[0, 32766]` whose slot lies beyond the end of the legacy
mapping or holds `UNKNOWN_RUNTIME`, `addAnchorByLegacyValue` returns `exist = false` without
error and changes only the legacy mapping: its new length is the maximum of the old length and
`lv + 1`, it holds the runtime id at index `lv`, `UNKNOWN_RUNTIME` at every other newly created
index, and the old value at every other index that existed before. -/
theorem addAnchorByLegacyValue_free (g : ToNEMCBaseNames) (lv : Int) (rtid : Nat)
    (hlo : 0 ≤ lv) (hhi : lv ≤ 32766)
    (hslot : sliceGet g.legacyValuesMapping lv = none ∨
      sliceGet g.legacyValuesMapping lv = some UNKNOWN_RUNTIME) :
    ∃ m : List Nat,
      addAnchorByLegacyValue g lv rtid =
        some ({ g with legacyValuesMapping := m }, false, none) ∧
      m.length = max g.legacyValuesMapping.length (lv.toNat + 1) ∧
      m[lv.toNat]? = some rtid ∧
      (∀ i : Nat, g.legacyValuesMapping.length ≤ i → i < m.length → i ≠ lv.toNat →
        m[i]? = some UNKNOWN_RUNTIME) ∧
      (∀ i : Nat, i < g.legacyValuesMapping.length → i ≠ lv.toNat →
        m[i]? = g.legacyValuesMapping[i]?) := by
  have hwrap := wrapInt16_succ_of_lt lv hlo hhi
  by_cases hin : lv.toNat < g.legacyValuesMapping.length
  · -- the slot exists, so it holds `UNKNOWN_RUNTIME`
    have hget : sliceGet g.legacyValuesMapping lv = some UNKNOWN_RUNTIME := by
      rcases hslot with h | h
      · unfold sliceGet at h
        simp only [hlo, if_true] at h
        rw [List.getElem?_eq_none_iff] at h
        omega
      · exact h
    have hguard : wrapInt16 (lv + 1) ≤ (g.legacyValuesMapping.length : Int) := by
      rw [hwrap]; omega
    refine ⟨g.legacyValuesMapping.set lv.toNat rtid, ?_, ?_, ?_, ?_, ?_⟩
    · unfold addAnchorByLegacyValue
      simp [hguard, hget, sliceSet, hlo, hin]
    · rw [List.length_set]; omega
    · simp [List.getElem?_set, hin]
    · intro i h1 h2 _
      rw [List.length_set] at h2
      omega
    · intro i _ h2
      rw [List.getElem?_set_ne (Ne.symm h2)]
  · -- the slot lies beyond the end: the mapping is grown first
    have hguard : ¬ wrapInt16 (lv + 1) ≤ (g.legacyValuesMapping.length : Int) := by
      rw [hwrap]; omega
    have hfuel : (lv + 1 - (g.legacyValuesMapping.length : Int)).toNat =
        lv.toNat + 1 - g.legacyValuesMapping.length := by omega
    have hgrow := growLegacy_eq (lv + 1)
      (lv + 1 - (g.legacyValuesMapping.length : Int)).toNat g.legacyValuesMapping (le_refl _)
    rw [hfuel] at hgrow
    have hglen : (g.legacyValuesMapping ++
        List.replicate (lv.toNat + 1 - g.legacyValuesMapping.length) UNKNOWN_RUNTIME).length =
        lv.toNat + 1 := by
      rw [List.length_append, List.length_replicate]; omega
    refine ⟨(g.legacyValuesMapping ++
        List.replicate (lv.toNat + 1 - g.legacyValuesMapping.length) UNKNOWN_RUNTIME).set
          lv.toNat rtid, ?_, ?_, ?_, ?_, ?_⟩
    · unfold addAnchorByLegacyValue
      rw [if_neg hguard]
      simp only [hwrap, hfuel, hgrow]
      have hset : sliceSet (g.legacyValuesMapping ++
          List.replicate (lv.toNat + 1 - g.legacyValuesMapping.length) UNKNOWN_RUNTIME)
          lv rtid = some ((g.legacyValuesMapping ++
          List.replicate (lv.toNat + 1 - g.legacyValuesMapping.length) UNKNOWN_RUNTIME).set
            lv.toNat rtid) := by
        unfold sliceSet
        rw [hglen]
        simp [hlo]
      rw [hset]
    · rw [List.length_set, hglen]; omega
    · simp [List.getElem?_set, hglen]
    · intro i h1 h2 h3
      rw [List.length_set, hglen] at h2
      rw [List.getElem?_set_ne (Ne.symm h3), List.getElem?_append_right h1,
        List.getElem?_replicate]
      have : i - g.legacyValuesMapping.length <
          lv.toNat + 1 - g.legacyValuesMapping.length := by omega
      simp [this]
    · intro i h1 h2
      rw [List.getElem?_set_ne (Ne.symm h2), List.getElem?_append_left h1]

/-- Scenario for C6: registering legacy value `5` with `42` in a new group grows the mapping
to length `6`. -/
theorem addAnchorByLegacyValue_free_witness :
    ((0 : Int) ≤ 5 ∧ (5 : Int) ≤ 32766 ∧
      (sliceGet newBaseNameGroup.legacyValuesMapping 5 = none ∨
        sliceGet newBaseNameGroup.legacyValuesMapping 5 = some UNKNOWN_RUNTIME) ∧
      addAnchorByLegacyValue newBaseNameGroup 5 42 = some (woolGroup, false, none)) ∧
    ∃ m : List Nat,
      addAnchorByLegacyValue newBaseNameGroup 5 42 =
        some ({ newBaseNameGroup with legacyValuesMapping := m }, false, none) ∧
      m.length = max newBaseNameGroup.legacyValuesMapping.length ((5 : Int).toNat + 1) ∧
      m[(5 : Int).toNat]? = some 42 ∧
      (∀ i : Nat, newBaseNameGroup.legacyValuesMapping.length ≤ i → i < m.length →
        i ≠ (5 : Int).toNat → m[i]? = some UNKNOWN_RUNTIME) ∧
      (∀ i : Nat, i < newBaseNameGroup.legacyValuesMapping.length → i ≠ (5 : Int).toNat →
        m[i]? = newBaseNameGroup.legacyValuesMapping[i]?) :=
  ⟨⟨by decide, by decide, by decide, by decide⟩,
    addAnchorByLegacyValue_free newBaseNameGroup 5 42 (by decide) (by decide) (by decide)⟩

/-! ## Legacy value `32767` -/

/-- For the legacy value `32767` the guard `int(legacyValue+1) <= len(...)` is computed from
`-32768` and so holds for every mapping; on a mapping of at most `32767` slots the index
expression that follows panics. -/
theorem legacy_max_panics_of_short (g : ToNEMCBaseNames) (rtid : Nat)
    (hlen : g.legacyValuesMapping.length ≤ 32767) :
    addAnchorByLegacyValue g 32767 rtid = none ∧ preciseMatchByLegacyValue g 32767 = none := by
  have hnone : sliceGet g.legacyValuesMapping 32767 = none := by
    unfold sliceGet
    simp only [show (0 : Int) ≤ 32767 by decide, if_true]
    rw [List.getElem?_eq_none_iff]
    exact hlen
  have hguard : wrapInt16 (32767 + 1) ≤ (g.legacyValuesMapping.length : Int) := by
    rw [wrapInt16_succ_max]
    omega
  constructor
  · unfold addAnchorByLegacyValue
    rw [if_pos hguard, hnone]
  · unfold preciseMatchByLegacyValue
    rw [if_pos hguard, hnone]

/-- C7 (evaluation at the failing input). At legacy value `32767` the sum `legacyValue+1`
wraps to `-32768`, the length guard passes, and both `addAnchorByLegacyValue` and
`preciseMatchByLegacyValue` index the legacy mapping out of range: on a new group, and through
the translator methods, the calls panic instead of growing or reading the mapping. -/
theorem legacy_max_value_panics :
    wrapInt16 (32767 + 1) = -32768 ∧
    addAnchorByLegacyValue newBaseNameGroup 32767 42 = none ∧
    preciseMatchByLegacyValue newBaseNameGroup 32767 = none ∧
    AddAnchorByLegacyValue emptyConverter "wool" 32767 42 = none ∧
    PreciseMatchByLegacyValue woolConverter "wool" 32767 = none := by
  decide

/-! ## Fuzzy resolution by legacy value on a group without anchors -/

/-- C8 (evaluation at the failing input). Registering legacy value `5` for `wool` in an empty
translator yields a translator whose `wool` group has an empty anchor list; looking up legacy
value `3` there finds the slot unset, finds `3` out of range of the anchor list, and indexes
the first element of the empty list: the call panics. -/
theorem TryBestSearchByLegacyValue_empty_anchor_list_panics :
    AddAnchorByLegacyValue emptyConverter "wool" 5 42 = some (woolConverter, false, none) ∧
    getBaseNameGroup woolConverter "wool" = some woolGroup ∧
    woolGroup.statesWithRtid = [] ∧
    TryBestSearchByLegacyValue woolConverter "wool" 3 = none := by
  decide

/-! ## Exact resolution by legacy value -/

/-- C9. For a legacy value in `[0, 32766]`, `preciseMatchByLegacyValue` completes and returns
the slot value with `found = true` when the slot exists and differs from `UNKNOWN_RUNTIME`,
and `(AIR_RUNTIMEID, false)` when the slot is out of range or holds `UNKNOWN_RUNTIME`. The
function only reads the group. -/
theorem preciseMatchByLegacyValue_spec (g : ToNEMCBaseNames) (lv : Int)
    (hlo : 0 ≤ lv) (hhi : lv ≤ 32766) :
    preciseMatchByLegacyValue g lv =
      some (match g.legacyValuesMapping[lv.toNat]? with
        | some rtid => if rtid = UNKNOWN_RUNTIME then (AIR_RUNTIMEID, false) else (rtid, true)
        | none => (AIR_RUNTIMEID, false)) := by
  have hwrap := wrapInt16_succ_of_lt lv hlo hhi
  unfold preciseMatchByLegacyValue
  rw [hwrap]
  by_cases hin : lv.toNat < g.legacyValuesMapping.length
  · have hguard : lv + 1 ≤ (g.legacyValuesMapping.length : Int) := by omega
    rw [if_pos hguard]
    unfold sliceGet
    rw [if_pos hlo]
    obtain ⟨v, hv⟩ : ∃ v, g.legacyValuesMapping[lv.toNat]? = some v :=
      ⟨_, List.getElem?_eq_getElem hin⟩
    rw [hv]
    by_cases hu : v = UNKNOWN_RUNTIME <;> simp [hu]
  · have hguard : ¬ lv + 1 ≤ (g.legacyValuesMapping.length : Int) := by omega
    rw [if_neg hguard]
    have hnone : g.legacyValuesMapping[lv.toNat]? = none := by
      rw [List.getElem?_eq_none_iff]; omega
    rw [hnone]

/-- Scenario for C9: in a group whose slot `5` holds `42`, legacy value `5` is found, the
unset slot `3` and the out-of-range value `9` are not. -/
theorem preciseMatchByLegacyValue_spec_witness :
    ((0 : Int) ≤ 5 ∧ (5 : Int) ≤ 32766 ∧
      preciseMatchByLegacyValue woolGroup 5 = some (42, true) ∧
      preciseMatchByLegacyValue woolGroup 3 = some (AIR_RUNTIMEID, false) ∧
      preciseMatchByLegacyValue woolGroup 9 = some (AIR_RUNTIMEID, false)) ∧
    preciseMatchByLegacyValue woolGroup 5 =
      some (match woolGroup.legacyValuesMapping[(5 : Int).toNat]? with
        | some rtid => if rtid = UNKNOWN_RUNTIME then (AIR_RUNTIMEID, false) else (rtid, true)
        | none => (AIR_RUNTIMEID, false)) :=
  ⟨⟨by decide, by decide, by decide, by decide, by decide⟩,
    preciseMatchByLegacyValue_spec woolGroup 5 (by decide) (by decide)⟩

/-! ## Exact fast path of the fuzzy search by state -/

/-- C10. Exact fast path first: whenever `PreciseMatchByState` finds `r` for a base name and a
property set, `TryBestSearchByState` returns the same `r` with `matchAny = true` (its score
being the number of query properties as `Same`), whatever anchors the list holds. -/
theorem TryBestSearchByState_exact_first (c : ToNEMCConverter) (name : String)
    (p : Option PropsForSearch) (r : Nat)
    (h : PreciseMatchByState c name p = (r, true)) :
    (TryBestSearchByState c name p).1 = r ∧ (TryBestSearchByState c name p).2.2 = true ∧
    (TryBestSearchByState c name p).2.1 =
      { Same := (propsOf p).length % 256, Different := 0, Redundant := 0, Missing := 0 } := by
  unfold PreciseMatchByState at h
  unfold TryBestSearchByState
  cases hg : getBaseNameGroup c name with
  | none =>
    rw [hg] at h
    simp at h
  | some g =>
    rw [hg] at h
    simp only [] at h ⊢
    unfold preciseMatchByState at h
    unfold fuzzySearchByState
    cases hk : goMapGet g.StatesWithRtidQuickMatch (InPreciseSNBT p) with
    | none =>
      rw [hk] at h
      simp at h
    | some v =>
      rw [hk] at h
      simp only [Prod.mk.injEq, and_true] at h
      subst h
      cases p <;> simp [propsOf, zeroScore]

/-- Scenario for C10: after `([axis="y"], 17)` and the overwrite `([axis="y"], 18)` the anchor
list starts with the anchor of runtime id `17`, the exact lookup yields `18`, and so does the
fuzzy search. -/
theorem TryBestSearchByState_exact_first_witness :
    (PreciseMatchByState oakLogOverwritten "oak_log" (axisProps "y") = (18, true) ∧
      (getBaseNameGroup oakLogOverwritten "oak_log").map (fun g => g.statesWithRtid) =
        some [{ states := axisProps "y", rtid := 17 },
          { states := axisProps "y", rtid := 18 }]) ∧
    ((TryBestSearchByState oakLogOverwritten "oak_log" (axisProps "y")).1 = 18 ∧
      (TryBestSearchByState oakLogOverwritten "oak_log" (axisProps "y")).2.2 = true ∧
      (TryBestSearchByState oakLogOverwritten "oak_log" (axisProps "y")).2.1 =
        { Same := (propsOf (axisProps "y")).length % 256, Different := 0, Redundant := 0,
          Missing := 0 }) :=
  ⟨⟨by decide, by decide⟩,
    TryBestSearchByState_exact_first oakLogOverwritten "oak_log" (axisProps "y") 18
      (by decide)⟩

/-! ## Unknown base names -/

/-- C12. Unknown base name is a value, not a failure: when the translator has no group for a
base name, `PreciseMatchByLegacyValue`, `TryBestSearchByLegacyValue` and `PreciseMatchByState`
return `(AIR_RUNTIMEID, false)` and `TryBestSearchByState` returns
`(AIR_RUNTIMEID, zero score, false)`, for every legacy value and property set, without a
panic. The four lookups only read the translator: they go through `getBaseNameGroup`, never
through `ensureBaseNameGroup`, and return no translator. -/
theorem lookups_of_unknown_base (c : ToNEMCConverter) (name : String)
    (hnone : getBaseNameGroup c name = none) (lv : Int) (p : Option PropsForSearch) :
    PreciseMatchByLegacyValue c name lv = some (AIR_RUNTIMEID, false) ∧
    TryBestSearchByLegacyValue c name lv = some (AIR_RUNTIMEID, false) ∧
    PreciseMatchByState c name p = (AIR_RUNTIMEID, false) ∧
    TryBestSearchByState c name p = (AIR_RUNTIMEID, zeroScore, false) := by
  refine ⟨?_, ?_, ?_, ?_⟩
  · unfold PreciseMatchByLegacyValue; rw [hnone]
  · unfold TryBestSearchByLegacyValue; rw [hnone]
  · unfold PreciseMatchByState; rw [hnone]
  · unfold TryBestSearchByState; rw [hnone]

/-- Scenario for C12: the translator knows `wool` only; `stone` is looked up, also with the
legacy value `32767`. -/
theorem lookups_of_unknown_base_witness :
    getBaseNameGroup woolConverter "stone" = none ∧
    (PreciseMatchByLegacyValue woolConverter "stone" 32767 = some (AIR_RUNTIMEID, false) ∧
      TryBestSearchByLegacyValue woolConverter "stone" 32767 = some (AIR_RUNTIMEID, false) ∧
      PreciseMatchByState woolConverter "stone" (axisProps "y") = (AIR_RUNTIMEID, false) ∧
      TryBestSearchByState woolConverter "stone" (axisProps "y") =
        (AIR_RUNTIMEID, zeroScore, false)) :=
  ⟨by decide, lookups_of_unknown_base woolConverter "stone" (by decide) 32767 (axisProps "y")⟩

/-! ## Fuzzy resolution by legacy value -/

/-- C19. In a group with a non-empty anchor list and for a legacy value in `[0, 32766]`,
`fuzzySearchByLegacyValue` completes with `found = true` and returns the legacy slot when it
exists and differs from `UNKNOWN_RUNTIME`, otherwise the runtime id of the anchor at position
`lv` when `lv` is below the length of the anchor list, otherwise the runtime id of the first
anchor. -/
theorem fuzzySearchByLegacyValue_spec (g : ToNEMCBaseNames) (lv : Int)
    (first : Anchor) (others : List Anchor)
    (hne : g.statesWithRtid = first :: others) (hlo : 0 ≤ lv) (hhi : lv ≤ 32766) :
    fuzzySearchByLegacyValue g lv =
      some (match g.legacyValuesMapping[lv.toNat]? with
        | some slot =>
          if slot ≠ UNKNOWN_RUNTIME then slot
          else match g.statesWithRtid[lv.toNat]? with
            | some anchor => anchor.rtid
            | none => first.rtid
        | none =>
          match g.statesWithRtid[lv.toNat]? with
          | some anchor => anchor.rtid
          | none => first.rtid, true) := by
  have hwrap := wrapInt16_succ_of_lt lv hlo hhi
  have hfallback :
      (if lv + 1 ≤ (g.statesWithRtid.length : Int) then
          match sliceGet g.statesWithRtid lv with
          | none => none
          | some anchor => some (anchor.rtid, true)
        else
          match sliceGet g.statesWithRtid 0 with
          | none => none
          | some anchor => some (anchor.rtid, true)) =
        some (match g.statesWithRtid[lv.toNat]? with
          | some anchor => anchor.rtid
          | none => first.rtid, true) := by
    by_cases hin : lv.toNat < g.statesWithRtid.length
    · have hguard : lv + 1 ≤ (g.statesWithRtid.length : Int) := by omega
      rw [if_pos hguard]
      unfold sliceGet
      rw [if_pos hlo, List.getElem?_eq_getElem hin]
    · have hguard : ¬ lv + 1 ≤ (g.statesWithRtid.length : Int) := by omega
      rw [if_neg hguard]
      have hnone : g.statesWithRtid[lv.toNat]? = none := by
        rw [List.getElem?_eq_none_iff]; omega
      rw [hnone, hne]
      simp [sliceGet]
  unfold fuzzySearchByLegacyValue
  rw [hwrap]
  by_cases hin : lv.toNat < g.legacyValuesMapping.length
  · have hguard : lv + 1 ≤ (g.legacyValuesMapping.length : Int) := by omega
    rw [if_pos hguard]
    have hget : sliceGet g.legacyValuesMapping lv = g.legacyValuesMapping[lv.toNat]? := by
      unfold sliceGet; rw [if_pos hlo]
    rw [hget, List.getElem?_eq_getElem hin]
    by_cases hu : g.legacyValuesMapping[lv.toNat] = UNKNOWN_RUNTIME
    · simp only [hu, ne_eq, not_true_eq_false, if_false]
      exact hfallback
    · simp only [ne_eq, hu, not_false_eq_true, if_true]
  · have hguard : ¬ lv + 1 ≤ (g.legacyValuesMapping.length : Int) := by omega
    rw [if_neg hguard]
    have hnone : g.legacyValuesMapping[lv.toNat]? = none := by
      rw [List.getElem?_eq_none_iff]; omega
    rw [hnone]
    exact hfallback

/-- Scenario for C19: a group with anchors `17`, `18` and no legacy slot: legacy value `1`
resolves to the anchor at position `1`. -/
theorem fuzzySearchByLegacyValue_spec_witness :
    (oakLogGroup.statesWithRtid =
        { states := axisProps "y", rtid := 17 } :: [{ states := axisProps "x", rtid := 18 }] ∧
      (0 : Int) ≤ 1 ∧ (1 : Int) ≤ 32766 ∧
      fuzzySearchByLegacyValue oakLogGroup 1 = some (18, true) ∧
      fuzzySearchByLegacyValue oakLogGroup 7 = some (17, true)) ∧
    fuzzySearchByLegacyValue oakLogGroup 1 =
      some (match oakLogGroup.legacyValuesMapping[(1 : Int).toNat]? with
        | some slot =>
          if slot ≠ UNKNOWN_RUNTIME then slot
          else match oakLogGroup.statesWithRtid[(1 : Int).toNat]? with
            | some anchor => anchor.rtid
            | none => ({ states := axisProps "y", rtid := 17 } : Anchor).rtid
        | none =>
          match oakLogGroup.statesWithRtid[(1 : Int).toNat]? with
          | some anchor => anchor.rtid
          | none => ({ states := axisProps "y", rtid := 17 } : Anchor).rtid, true) :=
  ⟨⟨by decide, by decide, by decide, by decide, by decide⟩,
    fuzzySearchByLegacyValue_spec oakLogGroup 1 { states := axisProps "y", rtid := 17 }
      [{ states := axisProps "x", rtid := 18 }] (by decide) (by decide) (by decide)⟩

/-! ## Agreement of the quick-match map with the anchor list -/

theorem goMapGet_goMapSet_of_ne {β : Type} (m : List (String × β)) (k k2 : String) (v : β)
    (hne : k2 ≠ k) : goMapGet (goMapSet m k v) k2 = goMapGet m k2 := by
  induction m with
  | nil =>
    simp [goMapSet, goMapGet, Ne.symm hne]
  | cons e rest ih =>
    by_cases h : e.1 = k
    · have h2 : ¬ e.1 = k2 := fun h3 => hne (h3.symm.trans h)
      simp [goMapSet, goMapGet, h, h2, Ne.symm hne]
    · by_cases h3 : e.1 = k2
      · have hk : ¬ k2 = k := hne
        rw [h3] at h
        simp only [goMapSet, h3, hk, if_false, goMapGet, if_true]
      · simp only [goMapSet, h, if_false, goMapGet, h3, ih]

theorem lastRtidWithKey_append_singleton (key : String) (a : Anchor) :
    ∀ l : List Anchor, lastRtidWithKey key (l ++ [a]) =
      if InPreciseSNBT a.states = key then some a.rtid else lastRtidWithKey key l := by
  intro l
  induction l with
  | nil => simp [lastRtidWithKey]
  | cons x rest ih =>
    have hcons : (x :: rest) ++ [a] = x :: (rest ++ [a]) := rfl
    rw [hcons]
    simp only [lastRtidWithKey]
    rw [ih]
    by_cases h : InPreciseSNBT a.states = key
    · simp only [h, if_true]
    · simp only [h, if_false]

/-- What `lastRtidWithKey` returns is the runtime id of an anchor with the key after which
no anchor has the key. -/
theorem lastRtidWithKey_eq_some (key : String) (r : Nat) :
    ∀ l : List Anchor, lastRtidWithKey key l = some r →
      ∃ (earlier later : List Anchor) (last : Anchor),
        l = earlier ++ last :: later ∧ InPreciseSNBT last.states = key ∧ last.rtid = r ∧
        ∀ b ∈ later, InPreciseSNBT b.states ≠ key := by
  intro l
  induction l with
  | nil => intro h; simp [lastRtidWithKey] at h
  | cons x rest ih =>
    intro h
    cases hrest : lastRtidWithKey key rest with
    | some r2 =>
      simp only [lastRtidWithKey, hrest, Option.some.injEq] at h
      subst h
      obtain ⟨e, l2, b, hdec, hk, hr, hlater⟩ := ih hrest
      exact ⟨x :: e, l2, b, by rw [hdec]; rfl, hk, hr, hlater⟩
    | none =>
      simp only [lastRtidWithKey, hrest] at h
      by_cases hx : InPreciseSNBT x.states = key
      · simp only [hx, if_true, Option.some.injEq] at h
        refine ⟨[], rest, x, rfl, hx, h, ?_⟩
        intro b hb hbk
        have : ∀ l2 : List Anchor, b ∈ l2 → lastRtidWithKey key l2 ≠ none := by
          intro l2
          induction l2 with
          | nil => intro hm; simp at hm
          | cons y ys ih2 =>
            intro hm
            rcases List.mem_cons.1 hm with hy | hy
            · subst hy
              cases hys : lastRtidWithKey key ys with
              | some r3 => simp [lastRtidWithKey, hys]
              | none => simp [lastRtidWithKey, hys, hbk]
            · have := ih2 hy
              cases hys : lastRtidWithKey key ys with
              | some r3 => simp [lastRtidWithKey, hys]
              | none => exact absurd hys this
        exact this rest hb hrest
      · simp [hx] at h

/-- Where `lastRtidWithKey` returns nothing, no anchor has the key. -/
theorem lastRtidWithKey_eq_none (key : String) :
    ∀ l : List Anchor, lastRtidWithKey key l = none →
      ∀ a ∈ l, InPreciseSNBT a.states ≠ key := by
  intro l
  induction l with
  | nil => intro _ a ha; simp at ha
  | cons x rest ih =>
    intro h a ha
    cases hrest : lastRtidWithKey key rest with
    | some r2 => simp [lastRtidWithKey, hrest] at h
    | none =>
      simp only [lastRtidWithKey, hrest] at h
      rcases List.mem_cons.1 ha with hx | hx
      · subst hx
        intro hk
        simp [hk] at h
      · exact ih hrest a hx

theorem newBaseNameGroup_consistent : groupConsistent newBaseNameGroup := by
  intro key
  rfl

theorem addAnchorByState_consistent (g : ToNEMCBaseNames) (states : Option PropsForSearch)
    (runtimeID : Nat) (overwrite : Bool) (hg : groupConsistent g) :
    groupConsistent (addAnchorByState g states runtimeID overwrite).1 := by
  have happ : groupConsistent
      { g with
        statesWithRtid := g.statesWithRtid ++ [{ states := states, rtid := runtimeID }]
        StatesWithRtidQuickMatch :=
          goMapSet g.StatesWithRtidQuickMatch (quickMatchKey states) runtimeID } := by
    intro key
    simp only []
    rw [lastRtidWithKey_append_singleton]
    simp only []
    rw [← quickMatchKey_eq]
    by_cases hk : quickMatchKey states = key
    · rw [if_pos hk, ← hk, goMapGet_goMapSet_self]
    · rw [if_neg hk, goMapGet_goMapSet_of_ne _ _ _ _ (Ne.symm hk)]
      exact hg key
  unfold addAnchorByState
  cases hget : goMapGet g.StatesWithRtidQuickMatch (quickMatchKey states) with
  | none => simp only [hget]; exact happ
  | some cur =>
    simp only [hget]
    by_cases hc : cur = runtimeID
    · simp only [hc, if_true]; exact hg
    · cases overwrite with
      | false => simp only [hc, if_false, Bool.not_false, if_true]; exact hg
      | true =>
        simp only [hc, if_false, Bool.not_true, Bool.false_eq_true]
        exact happ

theorem addAnchorByLegacyValue_keeps (g g2 : ToNEMCBaseNames) (lv : Int) (rtid : Nat)
    (res : Bool × Option String)
    (h : addAnchorByLegacyValue g lv rtid = some (g2, res)) :
    g2.statesWithRtid = g.statesWithRtid ∧
      g2.StatesWithRtidQuickMatch = g.StatesWithRtidQuickMatch := by
  unfold addAnchorByLegacyValue at h
  split at h
  · split at h
    · simp at h
    · split at h
      · split at h
        · simp at h
        · simp only [Option.some.injEq, Prod.mk.injEq] at h
          rw [← h.1]
          exact ⟨rfl, rfl⟩
      · split at h
        · simp only [Option.some.injEq, Prod.mk.injEq] at h
          rw [← h.1]
          exact ⟨rfl, rfl⟩
        · simp only [Option.some.injEq, Prod.mk.injEq] at h
          rw [← h.1]
          exact ⟨rfl, rfl⟩
  · simp only [] at h
    split at h
    · simp at h
    · simp only [Option.some.injEq, Prod.mk.injEq] at h
      rw [← h.1]
      exact ⟨rfl, rfl⟩

theorem ensureBaseNameGroup_consistent (c : ToNEMCConverter) (name : String)
    (hc : converterConsistent c) :
    converterConsistent (ensureBaseNameGroup c name).1 ∧
      groupConsistent (ensureBaseNameGroup c name).2 := by
  unfold ensureBaseNameGroup
  cases hget : goMapGet c.BaseNames name with
  | some grp => exact ⟨hc, hc name grp hget⟩
  | none =>
    refine ⟨?_, newBaseNameGroup_consistent⟩
    intro n2 g2 h2
    simp only [] at h2
    by_cases hn : n2 = name
    · rw [hn, goMapGet_goMapSet_self] at h2
      simp only [Option.some.injEq] at h2
      rw [← h2]
      exact newBaseNameGroup_consistent
    · rw [goMapGet_goMapSet_of_ne _ _ _ _ hn] at h2
      exact hc n2 g2 h2

theorem goMapSet_consistent (c : ToNEMCConverter) (name : String) (g : ToNEMCBaseNames)
    (hc : converterConsistent c) (hg : groupConsistent g) :
    converterConsistent { BaseNames := goMapSet c.BaseNames name g } := by
  intro n2 g2 h2
  simp only [] at h2
  by_cases hn : n2 = name
  · rw [hn, goMapGet_goMapSet_self] at h2
    simp only [Option.some.injEq] at h2
    rw [← h2]
    exact hg
  · rw [goMapGet_goMapSet_of_ne _ _ _ _ hn] at h2
    exact hc n2 g2 h2

theorem applyCall_consistent (c c2 : ToNEMCConverter) (call : RegCall)
    (hc : converterConsistent c) (h : applyCall c call = some c2) :
    converterConsistent c2 := by
  have hens := fun name => ensureBaseNameGroup_consistent c name hc
  cases call with
  | byState name states runtimeID overwrite =>
    simp only [applyCall, Option.some.injEq] at h
    rw [← h, AddAnchorByState_eq]
    exact goMapSet_consistent _ name _ (hens name).1
      (addAnchorByState_consistent _ states runtimeID overwrite (hens name).2)
  | byLegacy name lv rtid =>
    simp only [applyCall, AddAnchorByLegacyValue] at h
    cases hadd : addAnchorByLegacyValue (ensureBaseNameGroup c name).2 lv rtid with
    | none => simp [hadd] at h
    | some r =>
      obtain ⟨g2, res⟩ := r
      simp only [hadd, Option.some.injEq] at h
      rw [← h]
      have hk := addAnchorByLegacyValue_keeps _ g2 lv rtid res hadd
      apply goMapSet_consistent _ name _ (hens name).1
      intro key
      rw [hk.1, hk.2]
      exact (hens name).2 key

/-- Every translator reached from a consistent one by registration calls is consistent. -/
theorem runCalls_consistent :
    ∀ (calls : List RegCall) (c c2 : ToNEMCConverter), converterConsistent c →
      runCalls c calls = some c2 → converterConsistent c2 := by
  intro calls
  induction calls with
  | nil =>
    intro c c2 hc h
    simp only [runCalls, Option.some.injEq] at h
    rw [← h]; exact hc
  | cons call rest ih =>
    intro c c2 hc h
    cases hstep : applyCall c call with
    | none => simp [runCalls, hstep] at h
    | some c1 =>
      simp only [runCalls, hstep] at h
      exact ih c1 c2 (applyCall_consistent c c1 call hc hstep) h

theorem emptyConverter_consistent : converterConsistent emptyConverter := by
  intro name g h
  simp [emptyConverter, goMapGet] at h

/-- C18. Hash/list consistency: in every group of a translator reached from the empty one by
any sequence of `AddAnchorByState` and `AddAnchorByLegacyValue` calls (any overwrite flags,
conflicts included), a key is bound in the quick-match map exactly when some anchor of the list
has that canonical rendering, and the runtime id bound to it is that of the last such anchor:
the list splits as `earlier ++ last :: later` with `last` of that rendering and runtime id and
no anchor of `later` of that rendering. -/
theorem quickMatch_agrees_with_anchors (calls : List RegCall) (c : ToNEMCConverter)
    (hrun : runCalls emptyConverter calls = some c) (name : String) (g : ToNEMCBaseNames)
    (hg : getBaseNameGroup c name = some g) (key : String) :
    ((∃ r, goMapGet g.StatesWithRtidQuickMatch key = some r) ↔
      ∃ a ∈ g.statesWithRtid, InPreciseSNBT a.states = key) ∧
    (∀ r, goMapGet g.StatesWithRtidQuickMatch key = some r →
      ∃ (earlier later : List Anchor) (last : Anchor),
        g.statesWithRtid = earlier ++ last :: later ∧ InPreciseSNBT last.states = key ∧
        last.rtid = r ∧ ∀ b ∈ later, InPreciseSNBT b.states ≠ key) := by
  have hcons : goMapGet g.StatesWithRtidQuickMatch key = lastRtidWithKey key g.statesWithRtid :=
    runCalls_consistent calls emptyConverter c emptyConverter_consistent hrun name g hg key
  constructor
  · constructor
    · rintro ⟨r, hr⟩
      rw [hcons] at hr
      obtain ⟨e, l, b, hdec, hk, _, _⟩ := lastRtidWithKey_eq_some key r _ hr
      exact ⟨b, by rw [hdec]; simp, hk⟩
    · rintro ⟨a, ha, hk⟩
      cases hl : lastRtidWithKey key g.statesWithRtid with
      | some r => exact ⟨r, by rw [hcons, hl]⟩
      | none => exact absurd hk (lastRtidWithKey_eq_none key _ hl a ha)
  · intro r hr
    rw [hcons] at hr
    exact lastRtidWithKey_eq_some key r _ hr

/-- Scenario for C18: after `([axis="y"], 17)` and the overwrite `([axis="y"], 18)` the key of
`[axis="y"]` is bound to `18`, the runtime id of the last of the two anchors. -/
theorem quickMatch_agrees_with_anchors_witness :
    (runCalls emptyConverter oakLogCalls = some oakLogOverwritten ∧
      getBaseNameGroup oakLogOverwritten "oak_log" = some oakLogTwice ∧
      oakLogTwice.statesWithRtid =
        [{ states := axisProps "y", rtid := 17 }, { states := axisProps "y", rtid := 18 }] ∧
      goMapGet oakLogTwice.StatesWithRtidQuickMatch (InPreciseSNBT (axisProps "y")) =
        some 18) ∧
    (((∃ r, goMapGet oakLogTwice.StatesWithRtidQuickMatch (InPreciseSNBT (axisProps "y")) =
          some r) ↔
        ∃ a ∈ oakLogTwice.statesWithRtid,
          InPreciseSNBT a.states = InPreciseSNBT (axisProps "y")) ∧
      (∀ r, goMapGet oakLogTwice.StatesWithRtidQuickMatch (InPreciseSNBT (axisProps "y")) =
          some r →
        ∃ (earlier later : List Anchor) (last : Anchor),
          oakLogTwice.statesWithRtid = earlier ++ last :: later ∧
          InPreciseSNBT last.states = InPreciseSNBT (axisProps "y") ∧
          last.rtid = r ∧
          ∀ b ∈ later, InPreciseSNBT b.states ≠ InPreciseSNBT (axisProps "y"))) :=
  ⟨⟨by decide, by decide, by decide, by decide⟩,
    quickMatch_agrees_with_anchors oakLogCalls oakLogOverwritten (by decide) "oak_log"
      oakLogTwice (by decide) (InPreciseSNBT (axisProps "y"))⟩

/-! ## Fuzzy resolution by state over reachable translators -/

/-- On a miss of the quick-match map the scan over a non-empty anchor list returns the
runtime id and the score of one of the anchors. -/
theorem fuzzySearchByState_scan_mem (g : ToNEMCBaseNames) (states : Option PropsForSearch)
    (hne : g.statesWithRtid ≠ [])
    (hkey : goMapGet g.StatesWithRtidQuickMatch (InPreciseSNBT states) = none) :
    ∃ a ∈ g.statesWithRtid,
      fuzzySearchByState g states = (a.rtid, Compare a.states states, true) := by
  obtain ⟨x, rest, hxs⟩ := List.exists_cons_of_ne_nil hne
  obtain ⟨e2, l2, b2, hdec, hres, _, _⟩ := fuzzyScan_invariant states rest [] [] x
    (by simp) (by
      intro a ha
      have hax : a = x := by simpa using ha
      subst hax
      rw [improves_eq_false_iff]
      exact ⟨le_refl _, fun _ => le_refl _⟩)
  refine ⟨b2, ?_, ?_⟩
  · have hlist : g.statesWithRtid = e2 ++ b2 :: l2 := by
      rw [hxs, ← hdec]; simp
    rw [hlist]; simp
  · unfold fuzzySearchByState
    rw [hkey, hxs]
    simp only []
    rw [fuzzyScan_cons_first]
    exact hres

/-- C11 (counterexample). The translator reached by the single call
`AddAnchorByLegacyValue("wool", 5, 42)` has a group for `wool`, yet `TryBestSearchByState` for
`wool` returns `(AIR_RUNTIMEID, zero score, false)`: the answer for "no match" is not reserved
to unknown base names. -/
theorem TryBestSearchByState_known_base_unmatched :
    runCalls emptyConverter [.byLegacy "wool" 5 42] = some woolConverter ∧
    getBaseNameGroup woolConverter "wool" = some woolGroup ∧
    TryBestSearchByState woolConverter "wool" (axisProps "y") =
      (AIR_RUNTIMEID, zeroScore, false) ∧
    ¬ (TryBestSearchByState woolConverter "wool" (axisProps "y")).2.2 = true := by
  decide

/-- C11 (amended). In every translator reached from the empty one by registration calls,
`TryBestSearchByState` returns `(AIR_RUNTIMEID, zero score, false)` when the base name has no
group and when its group has an empty anchor list (a group created by `AddAnchorByLegacyValue`
alone); when the group has a non-empty anchor list it returns `matchAny = true` together with
the runtime id of one of the registered anchors. -/
theorem TryBestSearchByState_reachable (calls : List RegCall) (c : ToNEMCConverter)
    (hrun : runCalls emptyConverter calls = some c) (name : String)
    (p : Option PropsForSearch) :
    (getBaseNameGroup c name = none →
      TryBestSearchByState c name p = (AIR_RUNTIMEID, zeroScore, false)) ∧
    (∀ g, getBaseNameGroup c name = some g → g.statesWithRtid = [] →
      TryBestSearchByState c name p = (AIR_RUNTIMEID, zeroScore, false)) ∧
    (∀ g, getBaseNameGroup c name = some g → g.statesWithRtid ≠ [] →
      (TryBestSearchByState c name p).2.2 = true ∧
        ∃ a ∈ g.statesWithRtid, (TryBestSearchByState c name p).1 = a.rtid) := by
  have hcons := runCalls_consistent calls emptyConverter c emptyConverter_consistent hrun
  refine ⟨?_, ?_, ?_⟩
  · intro hnone
    unfold TryBestSearchByState
    rw [hnone]
  · intro g hg hnil
    have hk := hcons name g hg (InPreciseSNBT p)
    rw [hnil] at hk
    unfold TryBestSearchByState
    rw [hg]
    simp only []
    unfold fuzzySearchByState
    rw [hk, hnil]
    rfl
  · intro g hg hne
    have hk := hcons name g hg (InPreciseSNBT p)
    have htry : TryBestSearchByState c name p = fuzzySearchByState g p := by
      unfold TryBestSearchByState
      rw [hg]
    rw [htry]
    cases hl : lastRtidWithKey (InPreciseSNBT p) g.statesWithRtid with
    | none =>
      rw [hl] at hk
      obtain ⟨a, ha, hres⟩ := fuzzySearchByState_scan_mem g p hne hk
      rw [hres]
      exact ⟨rfl, a, ha, rfl⟩
    | some r =>
      rw [hl] at hk
      obtain ⟨e, l, b, hdec, _, hr, _⟩ := lastRtidWithKey_eq_some _ r _ hl
      have hfast : (fuzzySearchByState g p).1 = r ∧ (fuzzySearchByState g p).2.2 = true := by
        unfold fuzzySearchByState
        rw [hk]
        exact ⟨rfl, rfl⟩
      exact ⟨hfast.2, b, by rw [hdec]; simp, by rw [hfast.1, hr]⟩

/-- Scenario for C11 (amended): in the translator holding two anchors for `oak_log`, the
query `[axis="z"]` is matched with the runtime id of one of them, and an unknown base is
not matched. -/
theorem TryBestSearchByState_reachable_witness :
    (runCalls emptyConverter oakLogCalls = some oakLogOverwritten ∧
      getBaseNameGroup oakLogOverwritten "oak_log" = some oakLogTwice ∧
      TryBestSearchByState oakLogOverwritten "oak_log" (axisProps "z") =
        (17, { Same := 0, Different := 1, Redundant := 0, Missing := 0 }, true)) ∧
    ((getBaseNameGroup oakLogOverwritten "oak_log" = none →
        TryBestSearchByState oakLogOverwritten "oak_log" (axisProps "z") =
          (AIR_RUNTIMEID, zeroScore, false)) ∧
      (∀ g, getBaseNameGroup oakLogOverwritten "oak_log" = some g → g.statesWithRtid = [] →
        TryBestSearchByState oakLogOverwritten "oak_log" (axisProps "z") =
          (AIR_RUNTIMEID, zeroScore, false)) ∧
      (∀ g, getBaseNameGroup oakLogOverwritten "oak_log" = some g → g.statesWithRtid ≠ [] →
        (TryBestSearchByState oakLogOverwritten "oak_log" (axisProps "z")).2.2 = true ∧
          ∃ a ∈ g.statesWithRtid,
            (TryBestSearchByState oakLogOverwritten "oak_log" (axisProps "z")).1 = a.rtid)) :=
  ⟨⟨by decide, by decide, by decide⟩,
    TryBestSearchByState_reachable oakLogCalls oakLogOverwritten (by decide) "oak_log"
      (axisProps "z")⟩

/-! ## The `Same` count of the exact fast path -/

/-- On a hit of the quick-match map `fuzzySearchByState` returns the bound runtime id and a
score whose `Same` is the number of query properties, truncated to eight bits. -/
theorem fuzzySearchByState_fast (g : ToNEMCBaseNames) (p : Option PropsForSearch) (r : Nat)
    (h : goMapGet g.StatesWithRtidQuickMatch (InPreciseSNBT p) = some r) :
    fuzzySearchByState g p =
      (r, { Same := (propsOf p).length % 256, Different := 0, Redundant := 0, Missing := 0 },
        true) := by
  unfold fuzzySearchByState
  rw [h]
  cases p <;> simp [propsOf, zeroScore]

/-- After registering `q` and then `q2` with one runtime id in a new group, the quick-match
map binds the keys of both to that id. -/
theorem two_registrations_bound (q q2 : Option PropsForSearch) (r : Nat) :
    goMapGet (addAnchorByState (addAnchorByState newBaseNameGroup q r false).1 q2 r
        false).1.StatesWithRtidQuickMatch (InPreciseSNBT q) = some r ∧
    goMapGet (addAnchorByState (addAnchorByState newBaseNameGroup q r false).1 q2 r
        false).1.StatesWithRtidQuickMatch (InPreciseSNBT q2) = some r := by
  have h1 : addAnchorByState newBaseNameGroup q r false =
      ({ legacyValuesMapping := [], statesWithRtid := [{ states := q, rtid := r }],
          StatesWithRtidQuickMatch := [(InPreciseSNBT q, r)] }, false, none) := by
    unfold addAnchorByState
    simp [newBaseNameGroup, goMapGet, goMapSet, quickMatchKey_eq]
  rw [h1]
  unfold addAnchorByState
  simp only [quickMatchKey_eq]
  by_cases hk : InPreciseSNBT q = InPreciseSNBT q2
  · simp [goMapGet, hk]
  · simp [goMapGet, goMapSet, hk, Ne.symm hk]

/-- Two registrations by state under one name, starting from the empty translator, leave
under that name the group obtained by the two group-level registrations. -/
theorem AddAnchorByState_twice_group (name : String) (q q2 : Option PropsForSearch)
    (r r2 : Nat) (o o2 : Bool) :
    getBaseNameGroup
        (AddAnchorByState (AddAnchorByState emptyConverter name q r o).1 name q2 r2 o2).1 name =
      some (addAnchorByState (addAnchorByState newBaseNameGroup q r o).1 q2 r2 o2).1 := by
  have h1 : AddAnchorByState emptyConverter name q r o =
      ({ BaseNames := [(name, (addAnchorByState newBaseNameGroup q r o).1)] },
        (addAnchorByState newBaseNameGroup q r o).2) := by
    rw [AddAnchorByState_eq]
    simp [ensureBaseNameGroup, emptyConverter, goMapGet, goMapSet]
  rw [h1, AddAnchorByState_eq]
  simp [ensureBaseNameGroup, getBaseNameGroup, goMapGet, goMapSet]

theorem runCalls_two_byState (c : ToNEMCConverter) (name : String)
    (q q2 : Option PropsForSearch) (r r2 : Nat) (o o2 : Bool) :
    runCalls c [.byState name q r o, .byState name q2 r2 o2] =
      some (AddAnchorByState (AddAnchorByState c name q r o).1 name q2 r2 o2).1 := by
  rfl

theorem manyProps_length (n : Nat) : (propsOf (manyProps n)).length = n := by
  simp [manyProps, propsOf]

set_option maxRecDepth 100000 in
theorem manyProps_fresh_key : propLookup "p255" (propsOf (manyProps 255)) = none := by
  decide

/-- C13 (evaluation at the failing input). Under `stone` the property set `q` of `255`
properties `p0..p254` and its extension by `p255=255` are registered. The key `p255` is not in
`q`. Both queries hit the quick-match map, where `Same` is `uint8(len(props))`: it is `255`
for `q` and wraps to `0` for the extended query, so the `Same` count decreases. -/
theorem fuzzy_same_count_wraps :
    runCalls emptyConverter manyPropsCalls = some manyPropsConverter ∧
    getBaseNameGroup manyPropsConverter "stone" = some manyPropsGroup ∧
    propLookup "p255" (propsOf (manyProps 255)) = none ∧
    propsOf (manyProps 256) = propsOf (manyProps 255) ++ [("p255", PropVal.int 255)] ∧
    (TryBestSearchByState manyPropsConverter "stone" (manyProps 255)).2.1.Same = 255 ∧
    (TryBestSearchByState manyPropsConverter "stone" (manyProps 256)).2.1.Same = 0 := by
  have hgrp : getBaseNameGroup manyPropsConverter "stone" = some manyPropsGroup :=
    AddAnchorByState_twice_group "stone" (manyProps 255) (manyProps 256) 1 1 false false
  have hb : goMapGet manyPropsGroup.StatesWithRtidQuickMatch (InPreciseSNBT (manyProps 255)) =
        some 1 ∧
      goMapGet manyPropsGroup.StatesWithRtidQuickMatch (InPreciseSNBT (manyProps 256)) =
        some 1 := by
    unfold manyPropsGroup
    exact two_registrations_bound (manyProps 255) (manyProps 256) 1
  have hext : propsOf (manyProps 256) =
      propsOf (manyProps 255) ++ [("p255", PropVal.int 255)] := by
    have hs : (256 : Nat) = 255 + 1 := rfl
    unfold manyProps propsOf
    simp only []
    rw [hs, List.range_succ, List.map_append]
    rfl
  refine ⟨runCalls_two_byState emptyConverter "stone" _ _ 1 1 false false, hgrp,
    manyProps_fresh_key, hext, ?_, ?_⟩
  · unfold TryBestSearchByState
    rw [hgrp]
    simp only []
    rw [fuzzySearchByState_fast manyPropsGroup (manyProps 255) 1 hb.1, manyProps_length]
  · unfold TryBestSearchByState
    rw [hgrp]
    simp only []
    rw [fuzzySearchByState_fast manyPropsGroup (manyProps 256) 1 hb.2, manyProps_length]

/-! ## Splitting a block string into name and state text -/

theorem replaceBraces_of_plain (l : List Char) (h : ∀ c ∈ l, plainChar c) :
    replaceBraces l = l := by
  induction l with
  | nil => rfl
  | cons c rest ih =>
    have hc := (h c (List.mem_cons_self _ _)).2.2.1
    have hrest := ih (fun d hd => h d (List.mem_cons_of_mem _ hd))
    unfold replaceBraces at hrest ⊢
    simp only [List.map_cons, hc, if_false, hrest]

theorem replaceBraces_append (l1 l2 : List Char) :
    replaceBraces (l1 ++ l2) = replaceBraces l1 ++ replaceBraces l2 := by
  simp [replaceBraces]

theorem splitOnBracket_of_plain (l : List Char) (h : ∀ c ∈ l, plainChar c) :
    splitOnBracket l = [l] := by
  induction l with
  | nil => rfl
  | cons c rest ih =>
    have hc := (h c (List.mem_cons_self _ _)).1
    have hrest := ih (fun d hd => h d (List.mem_cons_of_mem _ hd))
    simp only [splitOnBracket, hc, if_false, hrest]

theorem splitOnBracket_append_bracket (l rest : List Char) (h : ∀ c ∈ l, plainChar c) :
    splitOnBracket (l ++ '[' :: rest) = l :: splitOnBracket rest := by
  induction l with
  | nil => simp [splitOnBracket]
  | cons c tl ih =>
    have hc := (h c (List.mem_cons_self _ _)).1
    have htl := ih (fun d hd => h d (List.mem_cons_of_mem _ hd))
    have hcons : (c :: tl) ++ '[' :: rest = c :: (tl ++ '[' :: rest) := rfl
    rw [hcons]
    simp only [splitOnBracket, hc, if_false]
    rw [htl]

theorem stripClosing_append_bracket (l : List Char) : stripClosing (l ++ [']']) = l := by
  simp [stripClosing]

theorem stripClosing_append_brace (l : List Char) : stripClosing (l ++ ['\x7d']) = l := by
  simp [stripClosing]

theorem stripClosing_of_plain (l : List Char) (h : ∀ c ∈ l, plainChar c) :
    stripClosing l = l := by
  unfold stripClosing
  cases hl : l.getLast? with
  | none => rfl
  | some c =>
    have hmem : c ∈ l := List.mem_of_getLast?_eq_some hl
    have hc := h c hmem
    simp [hc.2.1, hc.2.2.2]

/-- The parts of a block string whose text after the opening bracket is `state`. -/
theorem blockStringParts_of_fragments (n state : List Char) (hn : ∀ c ∈ n, plainChar c)
    (hstate : ∀ c ∈ state, c ≠ '[' ∧ c ≠ '\x7b') (blockString : String)
    (hdata : blockString.data = n ++ '[' :: state ∨ blockString.data = n ++ '\x7b' :: state) :
    blockStringParts blockString = (String.mk n, String.mk (stripClosing state)) := by
  have hrep : replaceBraces blockString.data = n ++ '[' :: state := by
    have hst : replaceBraces state = state := by
      unfold replaceBraces
      rw [List.map_congr_left (g := id)]
      · simp
      · intro c hc
        simp [(hstate c hc).2]
    rcases hdata with hd | hd
    · rw [hd, replaceBraces_append, replaceBraces_of_plain n hn]
      simp [replaceBraces] at hst ⊢
      exact hst
    · rw [hd, replaceBraces_append, replaceBraces_of_plain n hn]
      simp [replaceBraces] at hst ⊢
      exact hst
  have hsplit : splitOnBracket state = [state] := by
    clear hrep hdata
    induction state with
    | nil => rfl
    | cons c rest ih =>
      have hc := (hstate c (List.mem_cons_self _ _)).1
      have hrest := ih (fun d hd => hstate d (List.mem_cons_of_mem _ hd))
      simp only [splitOnBracket, hc, if_false, hrest]
  unfold blockStringParts
  rw [hrep, splitOnBracket_append_bracket n state hn, hsplit]
  simp

/-- C14. For a block name `n` and a property text `s` without brackets and braces, the four
spellings `n[s]`, `n{s}`, `n[s` and `n{s` are split alike: the name text is `n` and the text
handed to the property parser is exactly `s`, so `ConvertStringToBlockNameAndPropsForSearch`
returns the same pair for all four. -/
theorem ConvertString_four_spellings {N : Type} (BlockNameForSearch : String → N)
    (PropsForSearchFromStr : String → Option PropsForSearch × Option String)
    (n s : String) (hn : ∀ c ∈ n.data, plainChar c) (hs : ∀ c ∈ s.data, plainChar c) :
    blockStringParts (n ++ "[" ++ s ++ "]") = (n, s) ∧
    blockStringParts (n ++ "\x7b" ++ s ++ "\x7d") = (n, s) ∧
    blockStringParts (n ++ "[" ++ s) = (n, s) ∧
    blockStringParts (n ++ "\x7b" ++ s) = (n, s) ∧
    ConvertStringToBlockNameAndPropsForSearch BlockNameForSearch PropsForSearchFromStr
        (n ++ "[" ++ s ++ "]") = (BlockNameForSearch n, (PropsForSearchFromStr s).1) ∧
    ConvertStringToBlockNameAndPropsForSearch BlockNameForSearch PropsForSearchFromStr
        (n ++ "\x7b" ++ s ++ "\x7d") = (BlockNameForSearch n, (PropsForSearchFromStr s).1) ∧
    ConvertStringToBlockNameAndPropsForSearch BlockNameForSearch PropsForSearchFromStr
        (n ++ "[" ++ s) = (BlockNameForSearch n, (PropsForSearchFromStr s).1) ∧
    ConvertStringToBlockNameAndPropsForSearch BlockNameForSearch PropsForSearchFromStr
        (n ++ "\x7b" ++ s) = (BlockNameForSearch n, (PropsForSearchFromStr s).1) := by
  have hs2 : ∀ c ∈ s.data, c ≠ '[' ∧ c ≠ '\x7b' := fun c hc => ⟨(hs c hc).1, (hs c hc).2.2.1⟩
  have hs3 : ∀ c ∈ s.data ++ [']'], c ≠ '[' ∧ c ≠ '\x7b' := by
    intro c hc
    rcases List.mem_append.1 hc with h | h
    · exact hs2 c h
    · have : c = ']' := by simpa using h
      subst this
      exact ⟨by decide, by decide⟩
  have hs4 : ∀ c ∈ s.data ++ ['\x7d'], c ≠ '[' ∧ c ≠ '\x7b' := by
    intro c hc
    rcases List.mem_append.1 hc with h | h
    · exact hs2 c h
    · have : c = '\x7d' := by simpa using h
      subst this
      exact ⟨by decide, by decide⟩
  have p1 : blockStringParts (n ++ "[" ++ s ++ "]") = (n, s) := by
    rw [blockStringParts_of_fragments n.data (s.data ++ [']']) hn hs3 _
      (Or.inl (by simp [String.data_append])), stripClosing_append_bracket]
  have p2 : blockStringParts (n ++ "\x7b" ++ s ++ "\x7d") = (n, s) := by
    rw [blockStringParts_of_fragments n.data (s.data ++ ['\x7d']) hn hs4 _
      (Or.inr (by simp [String.data_append])), stripClosing_append_brace]
  have p3 : blockStringParts (n ++ "[" ++ s) = (n, s) := by
    rw [blockStringParts_of_fragments n.data s.data hn hs2 _
      (Or.inl (by simp [String.data_append])), stripClosing_of_plain s.data hs]
  have p4 : blockStringParts (n ++ "\x7b" ++ s) = (n, s) := by
    rw [blockStringParts_of_fragments n.data s.data hn hs2 _
      (Or.inr (by simp [String.data_append])), stripClosing_of_plain s.data hs]
  refine ⟨p1, p2, p3, p4, ?_, ?_, ?_, ?_⟩ <;>
    simp only [ConvertStringToBlockNameAndPropsForSearch, p1, p2, p3, p4]

/-- Scenario for C14: `stone_slab` with the property text `waterlogged=true`, the name kept
as text and the parser recording what it is given. -/
theorem ConvertString_four_spellings_witness :
    ((∀ c ∈ "stone_slab".data, plainChar c) ∧ (∀ c ∈ "waterlogged=true".data, plainChar c) ∧
      ConvertStringToBlockNameAndPropsForSearch id recordingParser
        "stone_slab\x7bwaterlogged=true\x7d" =
          ("stone_slab", some { props := [("waterlogged=true", PropVal.bool true)] })) ∧
    (blockStringParts ("stone_slab" ++ "[" ++ "waterlogged=true" ++ "]") =
        ("stone_slab", "waterlogged=true") ∧
      blockStringParts ("stone_slab" ++ "\x7b" ++ "waterlogged=true" ++ "\x7d") =
        ("stone_slab", "waterlogged=true") ∧
      blockStringParts ("stone_slab" ++ "[" ++ "waterlogged=true") =
        ("stone_slab", "waterlogged=true") ∧
      blockStringParts ("stone_slab" ++ "\x7b" ++ "waterlogged=true") =
        ("stone_slab", "waterlogged=true") ∧
      ConvertStringToBlockNameAndPropsForSearch id recordingParser
          ("stone_slab" ++ "[" ++ "waterlogged=true" ++ "]") =
        (id "stone_slab", (recordingParser "waterlogged=true").1) ∧
      ConvertStringToBlockNameAndPropsForSearch id recordingParser
          ("stone_slab" ++ "\x7b" ++ "waterlogged=true" ++ "\x7d") =
        (id "stone_slab", (recordingParser "waterlogged=true").1) ∧
      ConvertStringToBlockNameAndPropsForSearch id recordingParser
          ("stone_slab" ++ "[" ++ "waterlogged=true") =
        (id "stone_slab", (recordingParser "waterlogged=true").1) ∧
      ConvertStringToBlockNameAndPropsForSearch id recordingParser
          ("stone_slab" ++ "\x7b" ++ "waterlogged=true") =
        (id "stone_slab", (recordingParser "waterlogged=true").1)) :=
  ⟨⟨by unfold plainChar; decide, by unfold plainChar; decide, by decide⟩,
    ConvertString_four_spellings id recordingParser "stone_slab" "waterlogged=true"
      (by unfold plainChar; decide) (by unfold plainChar; decide)⟩

/-- C20 (evaluation at the failing input). For the block string `stone[k="a[b"]`, whose
property text `k="a[b"` holds a quoted value with an opening bracket, the split at every `[`
keeps only the fragment up to that bracket: the property parser is handed `k="a`, an
unterminated string, not the text between the first `[` and the final `]`. A quoted opening
brace is first turned into a bracket and cuts the text in the same way. -/
theorem quoted_bracket_truncates_state :
    (∀ c ∈ "stone".data, plainChar c) ∧
    blockStringParts ("stone" ++ "[" ++ "k=\"a[b\"" ++ "]") = ("stone", "k=\"a") ∧
    blockStringParts ("stone" ++ "[" ++ "k=\"a\x7bb\"" ++ "]") = ("stone", "k=\"a") ∧
    ConvertStringToBlockNameAndPropsForSearch id recordingParser
        ("stone" ++ "[" ++ "k=\"a[b\"" ++ "]") =
      ("stone", (recordingParser "k=\"a").1) ∧
    ¬ blockStringParts ("stone" ++ "[" ++ "k=\"a[b\"" ++ "]") = ("stone", "k=\"a[b\"") := by
  refine ⟨by unfold plainChar; decide, by decide, by decide, by decide, by decide⟩

/-! ## Overflow of the mismatch sum in the scan -/

end Blocks

namespace Chunk

/-! ## Palette count of zero -/

/-- C15 (evaluation at the failing input). With the non-zero bit width `1` and a buffer that
starts with the count `0` (four zero bytes), `decodePalette` returns a palette without values
and no error, whatever the entry codec and the bytes that follow: the count read from the
buffer is not checked. -/
theorem decodePalette_accepts_zero_count (e : paletteEncoding) (rest : List Nat) :
    paletteHeader (0 :: 0 :: 0 :: 0 :: rest) 1 = some (0, rest) ∧
    decodePalette (0 :: 0 :: 0 :: 0 :: rest) 1 e =
      (some { Size := 1, Values := [] }, none, rest) := by
  constructor
  · rfl
  · rfl

/-! ## Round trip of the palette -/

theorem readUint32LE_putUint32LE (n : Nat) (hn : n < 4294967296) (rest : List Nat) :
    readUint32LE (putUint32LE n ++ rest) = some (n, rest) := by
  simp only [putUint32LE, List.cons_append, List.nil_append, readUint32LE, Option.some.injEq,
    Prod.mk.injEq, and_true]
  omega

/-- Decoding as many entries as were encoded gives the values back and leaves what follows
them. -/
theorem decodeValues_encodeValues (e : paletteEncoding) :
    ∀ (values rest : List Nat),
      (∀ v ∈ values, ∀ tail, e.decode (e.encode v ++ tail) = (v, none, tail)) →
      decodeValues e values.length (encodeValues e values ++ rest) = (.ok values, rest) := by
  intro values
  induction values with
  | nil =>
    intro rest _
    rfl
  | cons v vs ih =>
    intro rest h
    have hv := h v (List.mem_cons_self _ _) (encodeValues e vs ++ rest)
    have hvs := ih rest (fun w hw => h w (List.mem_cons_of_mem _ hw))
    simp only [List.length_cons, encodeValues, List.append_assoc, decodeValues, hv, hvs]

/-- C16. Palette round trip: for a palette with exactly one value when its `Size` is `0` and
fewer than `2^32` values otherwise, and an entry codec whose `decode` gives back each value of
the palette from its encoding followed by any bytes, `decodePalette` with bit width `p.Size`
applied to the bytes written by `encodePalette` followed by any trailing bytes returns the very
palette, no error, and leaves exactly the trailing bytes unread. -/
theorem decodePalette_encodePalette (p : Palette) (e : paletteEncoding) (trailing : List Nat)
    (hsize : p.Size = 0 → p.Values.length = 1)
    (hlen : p.Values.length < 4294967296)
    (hcodec : ∀ v ∈ p.Values, ∀ tail, e.decode (e.encode v ++ tail) = (v, none, tail)) :
    decodePalette (encodePalette p e ++ trailing) p.Size e = (some p, none, trailing) := by
  have hvals := decodeValues_encodeValues e p.Values trailing hcodec
  unfold decodePalette paletteHeader encodePalette
  by_cases h0 : p.Size = 0
  · have h1 := hsize h0
    rw [h1] at hvals
    simp only [h0, ne_eq, not_true_eq_false, if_false, List.nil_append, hvals, NewPalette]
    cases p
    simp only [] at h0
    simp [h0]
  · simp only [ne_eq, h0, not_false_eq_true, if_true, List.append_assoc]
    rw [Nat.mod_eq_of_lt hlen, readUint32LE_putUint32LE _ hlen]
    simp only [hvals, NewPalette]

/-- Scenario for C16: the palette of bit width `2` with values `7, 8, 9`, one byte per entry,
followed by the bytes `5, 5`. -/
theorem decodePalette_encodePalette_witness :
    (encodePalette { Size := 2, Values := [7, 8, 9] } flagCodec = [3, 0, 0, 0, 7, 8, 9] ∧
      encodePalette { Size := 0, Values := [7] } flagCodec = [7]) ∧
    decodePalette (encodePalette { Size := 2, Values := [7, 8, 9] } flagCodec ++ [5, 5])
        ({ Size := 2, Values := [7, 8, 9] } : Palette).Size flagCodec =
      (some { Size := 2, Values := [7, 8, 9] }, none, [5, 5]) :=
  ⟨⟨by decide, by decide⟩,
    decodePalette_encodePalette { Size := 2, Values := [7, 8, 9] } flagCodec [5, 5]
      (by decide) (by decide)
      (by
        intro v hv tail
        simp only [List.mem_cons, List.mem_singleton, List.not_mem_nil, or_false] at hv
        rcases hv with h | h | h <;> subst h <;> rfl)⟩

/-! ## Errors of single palette entries -/

theorem entryBuffer_succ_left (e : paletteEncoding) (body : List Nat) :
    ∀ i, entryBuffer e body (i + 1) = entryBuffer e (e.decode body).2.2 i := by
  intro i
  induction i with
  | zero => rfl
  | succ k ih =>
    show (e.decode (entryBuffer e body (k + 1))).2.2 = _
    rw [ih]
    rfl

theorem entryError_succ_left (e : paletteEncoding) (body : List Nat) (i : Nat) :
    entryError e body (i + 1) = entryError e (e.decode body).2.2 i := by
  unfold entryError
  rw [entryBuffer_succ_left]

theorem entryStored_succ_left (e : paletteEncoding) (body : List Nat) (i : Nat) :
    entryStored e body (i + 1) = entryStored e (e.decode body).2.2 i := by
  unfold entryStored entryValue
  rw [entryError_succ_left, entryBuffer_succ_left]

/-- One iteration of the loop, in terms of the first entry. -/
theorem decodeValues_succ (e : paletteEncoding) (n : Nat) (body : List Nat) :
    decodeValues e (n + 1) body =
      if isFatal (entryError e body 0) = true then
        (.error ((entryError e body 0).getD (.other "")), (e.decode body).2.2)
      else
        match decodeValues e n (e.decode body).2.2 with
        | (.ok values, left) => (.ok (entryStored e body 0 :: values), left)
        | (.error err2, left) => (.error err2, left) := by
  obtain ⟨enc, dec⟩ := e
  unfold entryStored entryError entryValue
  rw [decodeValues]
  simp only [entryBuffer]
  generalize dec body = d
  obtain ⟨v, err, rest⟩ := d
  cases err with
  | none => simp [isFatal]
  | some x =>
    cases x with
    | other m => simp [isFatal]
    | blockPaletteEncoding msg cont =>
      cases cont <;> simp [isFatal]

/-- Without a fatal entry error among the first `count` entries the loop stores one value per
entry and leaves the buffer that follows the last entry. -/
theorem decodeValues_of_no_fatal (e : paletteEncoding) :
    ∀ (count : Nat) (body : List Nat),
      (∀ j < count, isFatal (entryError e body j) = false) →
      ∃ values : List Nat,
        decodeValues e count body = (.ok values, entryBuffer e body count) ∧
        values.length = count ∧
        ∀ i < count, values[i]? = some (entryStored e body i) := by
  intro count
  induction count with
  | zero =>
    intro body _
    exact ⟨[], rfl, rfl, fun i hi => absurd hi (Nat.not_lt_zero i)⟩
  | succ n ih =>
    intro body h
    have h0 : isFatal (entryError e body 0) = false := h 0 (Nat.succ_pos n)
    obtain ⟨vs, hvs, hl, hidx⟩ := ih (e.decode body).2.2 (by
      intro j hj
      rw [← entryError_succ_left]
      exact h (j + 1) (Nat.succ_lt_succ hj))
    refine ⟨entryStored e body 0 :: vs, ?_, by simp [hl], ?_⟩
    · rw [decodeValues_succ, h0, hvs, entryBuffer_succ_left]
      simp
    · intro i hi
      cases i with
      | zero => simp
      | succ k =>
        rw [List.getElem?_cons_succ, hidx k (Nat.lt_of_succ_lt_succ hi),
          entryStored_succ_left]

/-- At the first fatal entry error the loop stops and returns that error. -/
theorem decodeValues_of_fatal (e : paletteEncoding) :
    ∀ (i count : Nat) (body : List Nat), i < count →
      (∀ j < i, isFatal (entryError e body j) = false) →
      isFatal (entryError e body i) = true →
      decodeValues e count body =
        (.error ((entryError e body i).getD (.other "")), entryBuffer e body (i + 1)) := by
  intro i
  induction i with
  | zero =>
    intro count body hlt _ hfatal
    obtain ⟨n, rfl⟩ : ∃ n, count = n + 1 := ⟨count - 1, by omega⟩
    rw [decodeValues_succ, hfatal]
    rfl
  | succ k ih =>
    intro count body hlt hbefore hfatal
    obtain ⟨n, rfl⟩ : ∃ n, count = n + 1 := ⟨count - 1, by omega⟩
    have h0 : isFatal (entryError e body 0) = false := hbefore 0 (Nat.succ_pos k)
    have hrec := ih n (e.decode body).2.2 (by omega)
      (by
        intro j hj
        rw [← entryError_succ_left]
        exact hbefore (j + 1) (Nat.succ_lt_succ hj))
      (by rw [← entryError_succ_left]; exact hfatal)
    rw [decodeValues_succ, h0, hrec, ← entryError_succ_left, ← entryBuffer_succ_left]
    simp

/-- C17. Let `count` and `body` be the palette count and the bytes after it. If entry `i`
is the first whose decoding yields a `BlockPaletteEncodingError` that is not continuable,
`decodePalette` returns that error and no palette. If no entry yields such an error,
`decodePalette` returns, without error, a palette of `count` values in which index `i` holds
`AIR_RUNTIMEID` when entry `i` yielded a continuable `BlockPaletteEncodingError` and the
runtime id decoded for entry `i` otherwise, every entry being decoded from the bytes its
predecessor left. -/
theorem decodePalette_entry_errors (buf : List Nat) (blockSize : Nat) (e : paletteEncoding)
    (count : Nat) (body : List Nat) (hhead : paletteHeader buf blockSize = some (count, body)) :
    (∀ (i : Nat) (msg : String), i < count →
      (∀ j < i, ∀ m, entryError e body j ≠ some (.blockPaletteEncoding m false)) →
      entryError e body i = some (.blockPaletteEncoding msg false) →
      (decodePalette buf blockSize e).1 = none ∧
        (decodePalette buf blockSize e).2.1 = some (.blockPaletteEncoding msg false)) ∧
    ((∀ j < count, ∀ m, entryError e body j ≠ some (.blockPaletteEncoding m false)) →
      ∃ values : List Nat,
        decodePalette buf blockSize e =
          (some { Size := blockSize, Values := values }, none, entryBuffer e body count) ∧
        values.length = count ∧
        ∀ i < count, values[i]? = some
          (match entryError e body i with
            | some (.blockPaletteEncoding _ true) => Blocks.AIR_RUNTIMEID
            | _ => entryValue e body i)) := by
  have hfatal_iff : ∀ err : Option GoError,
      (∀ m, err ≠ some (.blockPaletteEncoding m false)) → isFatal err = false := by
    intro err h
    cases err with
    | none => rfl
    | some x =>
      cases x with
      | other m => rfl
      | blockPaletteEncoding msg cont =>
        cases cont with
        | true => rfl
        | false => exact absurd rfl (h msg)
  constructor
  · intro i msg hi hbefore herr
    have hdec := decodeValues_of_fatal e i count body hi
      (fun j hj => hfatal_iff _ (hbefore j hj)) (by rw [herr]; rfl)
    unfold decodePalette
    rw [hhead]
    simp only [hdec, herr, Option.getD_some]
    exact ⟨trivial, trivial⟩
  · intro hnone
    obtain ⟨values, hdec, hlen, hidx⟩ := decodeValues_of_no_fatal e count body
      (fun j hj => hfatal_iff _ (hnone j hj))
    refine ⟨values, ?_, hlen, hidx⟩
    unfold decodePalette
    rw [hhead]
    simp only [hdec, NewPalette]

/-- Scenario for C17 with the one-byte codec: in the entries `7, 255, 9` the second fails
continuably and is stored as air; in `7, 254, 9` the second fails fatally and the decoding
stops with its error. -/
theorem decodePalette_entry_errors_witness :
    (paletteHeader [3, 0, 0, 0, 7, 254, 9, 1] 1 = some (3, [7, 254, 9, 1]) ∧
      decodePalette [3, 0, 0, 0, 7, 255, 9, 1] 1 flagCodec =
        (some { Size := 1, Values := [7, Blocks.AIR_RUNTIMEID, 9] }, none, [1]) ∧
      decodePalette [3, 0, 0, 0, 7, 254, 9, 1] 1 flagCodec =
        (none, some (.blockPaletteEncoding "broken entry" false), [9, 1])) ∧
    ((∀ (i : Nat) (msg : String), i < 3 →
      (∀ j < i, ∀ m,
        entryError flagCodec [7, 254, 9, 1] j ≠ some (.blockPaletteEncoding m false)) →
      entryError flagCodec [7, 254, 9, 1] i = some (.blockPaletteEncoding msg false) →
      (decodePalette [3, 0, 0, 0, 7, 254, 9, 1] 1 flagCodec).1 = none ∧
        (decodePalette [3, 0, 0, 0, 7, 254, 9, 1] 1 flagCodec).2.1 =
          some (.blockPaletteEncoding msg false)) ∧
    ((∀ j < 3, ∀ m,
        entryError flagCodec [7, 254, 9, 1] j ≠ some (.blockPaletteEncoding m false)) →
      ∃ values : List Nat,
        decodePalette [3, 0, 0, 0, 7, 254, 9, 1] 1 flagCodec =
          (some { Size := 1, Values := values }, none,
            entryBuffer flagCodec [7, 254, 9, 1] 3) ∧
        values.length = 3 ∧
        ∀ i < 3, values[i]? = some
          (match entryError flagCodec [7, 254, 9, 1] i with
            | some (.blockPaletteEncoding _ true) => Blocks.AIR_RUNTIMEID
            | _ => entryValue flagCodec [7, 254, 9, 1] i))) :=
  ⟨⟨by decide, by decide, by decide⟩,
    decodePalette_entry_errors [3, 0, 0, 0, 7, 254, 9, 1] 1 flagCodec 3 [7, 254, 9, 1]
      (by decide)⟩

end Chunk
